import Mathlib

/-!
# shrupdate: a verification development

A shallow embedding of `cmd/shrupdate/main.go` and the properties of its
artifact pipeline.

The program talks to three collaborators that are not part of the repository:
the operating system's file system, the Go standard library (`path/filepath`,
`crypto/sha256`, `encoding/json`, `compress/gzip`) and the Go scheduler.  They
are modelled as follows.

* Paths: `filepath.Join` / `filepath.Clean` for Unix, as documented (lexical
  processing of `/`-separated components).
* File system: a map from locations to nodes plus the free space of the volume.
  Operations fail when a file is missing, a directory stands where a file is
  expected (or the other way round), a parent directory is missing, or the
  volume is full.  Paths are resolved lexically (no symbolic links), there are
  no permissions, directories take no space, and closing an `*os.File` never
  fails.
* SHA-256: implemented (FIPS 180-4) on `Nat` words modulo `2^32`.
* JSON: the encoder output for the two-string struct `current`.
* gzip: a parameter `Gzip` carrying the codec and its round-trip law.
* Goroutines and channels: a step function over explicit states, one action
  per step of a goroutine.  A task runs its body against a file-system state
  chosen by the schedule; the file operations of concurrent tasks are not
  interleaved one by one, and what is proved of the goroutines depends only on
  the events of a task, which have the same shape on every state.
-/

namespace Shrupdate

/-! ## Paths (`path/filepath`, Unix) -/

/-- Put a character in front of the first segment of a split. -/
def consHead (c : Char) : List (List Char) → List (List Char)
  | [] => [[c]]
  | s :: ss => (c :: s) :: ss

/-- Split a path at every `/`; the result always has at least one segment. -/
def splitSep : List Char → List (List Char)
  | [] => [[]]
  | c :: cs => if c = '/' then [] :: splitSep cs else consHead c (splitSep cs)

/-- Join segments with `/`. -/
def joinSep : List (List Char) → List Char
  | [] => []
  | [c] => c
  | c :: d :: cs => c ++ '/' :: joinSep (d :: cs)

/-- The `..` path element. -/
def dotdot : List Char := ['.', '.']

/-- One step of `filepath.Clean` on the stack of kept elements (top first):
empty and `.` elements are dropped, `..` removes the non-`..` element before
it, is dropped at the root, and is kept otherwise. -/
def cleanStep (rooted : Bool) (st : List (List Char)) (c : List Char) : List (List Char) :=
  if c = [] ∨ c = ['.'] then st
  else if c = dotdot then
    match st with
    | [] => if rooted then [] else [c]
    | t :: rest => if t = dotdot then c :: st else rest
  else c :: st

/-- A location: whether the path starts at the root, and its cleaned elements. -/
structure Loc where
  rooted : Bool
  comps : List (List Char)
deriving DecidableEq, Repr

/-- Walk further elements from a location. -/
def Loc.extend (l : Loc) (cs : List (List Char)) : Loc :=
  { rooted := l.rooted, comps := (cs.foldl (cleanStep l.rooted) l.comps.reverse).reverse }

/-- The working directory. -/
def Loc.cwd : Loc := { rooted := false, comps := [] }

/-- The location a path string names. -/
def resolveChars (s : List Char) : Loc :=
  Loc.extend { rooted := s.head? = some '/', comps := [] } (splitSep s)

/-- The shortest path string of a location. -/
def Loc.render (l : Loc) : List Char :=
  if l.rooted then '/' :: joinSep l.comps
  else if l.comps = [] then ['.'] else joinSep l.comps

/-- The location a path string names. -/
def resolve (s : String) : Loc := resolveChars s.data

/-- Model of `filepath.Clean`. -/
def Clean (s : String) : String := String.mk (resolveChars s.data).render

/-- Model of `filepath.Join`: leading empty elements are skipped, the rest is
joined with `/` and cleaned; the result is empty when every element is. -/
def Join (elem : List String) : String :=
  match elem.dropWhile (fun e => e.data = []) with
  | [] => ""
  | es => Clean (String.mk (joinSep (es.map String.data)))

/-- Lexical containment: `p` is `d` or lies below it. -/
def Loc.under (d p : Loc) : Prop :=
  d.rooted = p.rooted ∧ p.comps.take d.comps.length = d.comps ∧
    dotdot ∉ p.comps.drop d.comps.length

instance (d p : Loc) : Decidable (Loc.under d p) := by
  unfold Loc.under; infer_instance

/-- The parent directory of a location (the root and the working directory are
their own tops and have none). -/
def Loc.parent (l : Loc) : Loc := { rooted := l.rooted, comps := l.comps.dropLast }

/-- A plain name: not empty, not `.`, not `..`, and free of separators. -/
def Plain (c : List Char) : Prop := c ≠ [] ∧ c ≠ ['.'] ∧ c ≠ dotdot ∧ '/' ∉ c

/-- The stacks `filepath.Clean` can build (top first): plain names anywhere,
`..` only at the bottom of a relative path. -/
inductive CleanStack (rooted : Bool) : List (List Char) → Prop
  | nil : CleanStack rooted []
  | dots (st) : rooted = false → CleanStack rooted st → (∀ x ∈ st, x = dotdot) →
      CleanStack rooted (dotdot :: st)
  | name (c st) : Plain c → CleanStack rooted st → CleanStack rooted (c :: st)

/-- A location in cleaned form. -/
def Loc.IsClean (l : Loc) : Prop := CleanStack l.rooted l.comps.reverse

/-- The manifest path of `createUpdate`. -/
def jsonPath (genDir platform : String) : String := Join [genDir, platform ++ ".json"]

/-- The version-scoped output directory of `createUpdate`. -/
def versionDir (genDir version : String) : String := Join [genDir, version]

/-- The archive path of `createUpdate`. -/
def gzipPath (genDir version platform : String) : String :=
  Join [genDir, version, platform ++ ".gz"]

/-- The package-level variables `version` and `genDir`, set once by `main`
before any task starts and only read afterwards. -/
structure Config where
  version : String
  genDir : String
deriving DecidableEq, Repr

/-- The arguments of one `go createUpdate(...)` call. -/
structure Task where
  path : String
  platform : String
deriving DecidableEq, Repr

/-- The launch loop of `main`: one task per directory entry, each reading
`filepath.Join(appPath, file.Name())` and each given the same `platform`. -/
def launch (appPath platform : String) (files : List String) : List Task :=
  files.map (fun name => { path := Join [appPath, name], platform := platform })

/-- The files a task creates or overwrites. -/
def Task.targets (cfg : Config) (t : Task) : List Loc :=
  [resolve (jsonPath cfg.genDir t.platform), resolve (gzipPath cfg.genDir cfg.version t.platform)]

/-- Every target file belongs to one task only. -/
def OwnTargets (cfg : Config) (ts : List Task) : Prop :=
  ts.Pairwise (fun t u => ∀ l ∈ t.targets cfg, l ∉ u.targets cfg)

instance (cfg : Config) (ts : List Task) : Decidable (OwnTargets cfg ts) := by
  unfold OwnTargets; infer_instance

/-! ## SHA-256 (`crypto/sha256`), FIPS 180-4, on words modulo `2^32` -/

namespace Sha256

/-- Addition of 32-bit words. -/
def add32 (a b : Nat) : Nat := (a + b) % 4294967296

/-- Rotate a 32-bit word right by `n` bits. -/
def rotr (n x : Nat) : Nat := ((x >>> n) ||| (x <<< (32 - n))) % 4294967296

def ch (x y z : Nat) : Nat := (x &&& y) ^^^ ((x ^^^ 4294967295) &&& z)

def maj (x y z : Nat) : Nat := (x &&& y) ^^^ (x &&& z) ^^^ (y &&& z)

def bsig0 (x : Nat) : Nat := rotr 2 x ^^^ rotr 13 x ^^^ rotr 22 x

def bsig1 (x : Nat) : Nat := rotr 6 x ^^^ rotr 11 x ^^^ rotr 25 x

def ssig0 (x : Nat) : Nat := rotr 7 x ^^^ rotr 18 x ^^^ (x >>> 3)

def ssig1 (x : Nat) : Nat := rotr 17 x ^^^ rotr 19 x ^^^ (x >>> 10)

/-- The round constants. -/
def K : List Nat :=
  [0x428a2f98, 0x71374491, 0xb5c0fbcf, 0xe9b5dba5, 0x3956c25b, 0x59f111f1, 0x923f82a4, 0xab1c5ed5,
   0xd807aa98, 0x12835b01, 0x243185be, 0x550c7dc3, 0x72be5d74, 0x80deb1fe, 0x9bdc06a7, 0xc19bf174,
   0xe49b69c1, 0xefbe4786, 0x0fc19dc6, 0x240ca1cc, 0x2de92c6f, 0x4a7484aa, 0x5cb0a9dc, 0x76f988da,
   0x983e5152, 0xa831c66d, 0xb00327c8, 0xbf597fc7, 0xc6e00bf3, 0xd5a79147, 0x06ca6351, 0x14292967,
   0x27b70a85, 0x2e1b2138, 0x4d2c6dfc, 0x53380d13, 0x650a7354, 0x766a0abb, 0x81c2c92e, 0x92722c85,
   0xa2bfe8a1, 0xa81a664b, 0xc24b8b70, 0xc76c51a3, 0xd192e819, 0xd6990624, 0xf40e3585, 0x106aa070,
   0x19a4c116, 0x1e376c08, 0x2748774c, 0x34b0bcb5, 0x391c0cb3, 0x4ed8aa4a, 0x5b9cca4f, 0x682e6ff3,
   0x748f82ee, 0x78a5636f, 0x84c87814, 0x8cc70208, 0x90befffa, 0xa4506ceb, 0xbef9a3f7, 0xc67178f2]

/-- The eight working words. -/
structure State where
  a : Nat
  b : Nat
  c : Nat
  d : Nat
  e : Nat
  f : Nat
  g : Nat
  h : Nat
deriving DecidableEq, Repr

/-- The initial hash value. -/
def H0 : State :=
  { a := 0x6a09e667, b := 0xbb67ae85, c := 0x3c6ef372, d := 0xa54ff53a,
    e := 0x510e527f, f := 0x9b05688c, g := 0x1f83d9ab, h := 0x5be0cd19 }

/-- One round with round constant `k` and schedule word `w`. -/
def round (s : State) (k w : Nat) : State :=
  let t1 := add32 (add32 (add32 (add32 s.h (bsig1 s.e)) (ch s.e s.f s.g)) k) w
  let t2 := add32 (bsig0 s.a) (maj s.a s.b s.c)
  { a := add32 t1 t2, b := s.a, c := s.b, d := s.c, e := add32 s.d t1, f := s.e, g := s.f,
    h := s.g }

/-- The next word of the message schedule from the window of the last sixteen. -/
def nextW (win : List Nat) : Nat :=
  add32 (add32 (add32 (ssig1 (win.getD 14 0)) (win.getD 9 0)) (ssig0 (win.getD 1 0)))
    (win.getD 0 0)

/-- Run one round per remaining constant, sliding the schedule window. -/
def rounds : List Nat → List Nat → State → State
  | [], _, s => s
  | k :: ks, win, s => rounds ks (win.drop 1 ++ [nextW win]) (round s k (win.getD 0 0))

/-- Process one block of sixteen words. -/
def compress (hs : State) (block : List Nat) : State :=
  let s := rounds K block hs
  { a := add32 hs.a s.a, b := add32 hs.b s.b, c := add32 hs.c s.c, d := add32 hs.d s.d,
    e := add32 hs.e s.e, f := add32 hs.f s.f, g := add32 hs.g s.g, h := add32 hs.h s.h }

/-- Process `n` blocks. -/
def hashBlocks : Nat → State → List Nat → State
  | 0, hs, _ => hs
  | n + 1, hs, ws => hashBlocks n (compress hs (ws.take 16)) (ws.drop 16)

/-- The eight bytes of the message length in bits, most significant first. -/
def lenBytes (bits : Nat) : List Nat :=
  [(bits >>> 56) % 256, (bits >>> 48) % 256, (bits >>> 40) % 256, (bits >>> 32) % 256,
   (bits >>> 24) % 256, (bits >>> 16) % 256, (bits >>> 8) % 256, bits % 256]

/-- Padding: a one bit, zeros up to 56 modulo 64 bytes, the length. -/
def pad (msg : List Nat) : List Nat :=
  msg ++ 128 :: List.replicate ((64 - (msg.length + 9) % 64) % 64) 0 ++ lenBytes (8 * msg.length)

/-- Big-endian words from bytes. -/
def toWords : List Nat → List Nat
  | a :: b :: c :: d :: rest => (a * 16777216 + b * 65536 + c * 256 + d) :: toWords rest
  | _ => []

/-- The four bytes of a word, most significant first. -/
def wordBytes (w : Nat) : List UInt8 :=
  [UInt8.ofNat (w >>> 24), UInt8.ofNat (w >>> 16), UInt8.ofNat (w >>> 8), UInt8.ofNat w]

/-- The digest bytes of a final state. -/
def State.bytes (s : State) : List UInt8 :=
  wordBytes s.a ++ wordBytes s.b ++ wordBytes s.c ++ wordBytes s.d ++
    wordBytes s.e ++ wordBytes s.f ++ wordBytes s.g ++ wordBytes s.h

/-- The SHA-256 digest of a byte sequence: what `h.Sum(nil)` returns after the
bytes have been written to `sha256.New()`. -/
def sum (data : List UInt8) : List UInt8 :=
  let ws := toWords (pad (data.map UInt8.toNat))
  (hashBlocks (ws.length / 16) H0 ws).bytes

end Sha256

/-! ## `fmt.Sprintf("%x", bytes)` -/

/-- Two lowercase hexadecimal digits per byte. -/
def hexEncode : List UInt8 → List Char
  | [] => []
  | b :: bs => Nat.digitChar (b.toNat / 16) :: Nat.digitChar (b.toNat % 16) :: hexEncode bs

/-- Model of `fmt.Sprintf("%x", checksum)` for a byte slice. -/
def sprintfHex (checksum : List UInt8) : String := String.mk (hexEncode checksum)

/-- A lowercase hexadecimal digit. -/
def IsLowerHex (c : Char) : Prop := c ∈ "0123456789abcdef".data

/-! ## The manifest (`encoding/json`) -/

/-- The struct `current`. -/
structure current where
  Version : String
  Sha256 : String
deriving DecidableEq, Repr

/-- How the JSON encoder (HTML escaping on, the default of `json.NewEncoder`)
writes one character inside a string. -/
def jsonEscape (c : Char) : List Char :=
  if c = '"' then ['\\', '"']
  else if c = '\\' then ['\\', '\\']
  else if c = '\x08' then ['\\', 'b']
  else if c = '\x0c' then ['\\', 'f']
  else if c = '\n' then ['\\', 'n']
  else if c = '\r' then ['\\', 'r']
  else if c = '\t' then ['\\', 't']
  else if c.toNat < 32 ∨ c = '<' ∨ c = '>' ∨ c = '&' then
    ['\\', 'u', '0', '0', Nat.digitChar (c.toNat / 16), Nat.digitChar (c.toNat % 16)]
  else if c = '\u2028' then "\\u2028".data
  else if c = '\u2029' then "\\u2029".data
  else [c]

/-- Escape every character of a string. -/
def jsonEscapeAll : List Char → List Char
  | [] => []
  | c :: cs => jsonEscape c ++ jsonEscapeAll cs

/-- A JSON string literal. -/
def jsonString (s : String) : List Char :=
  '"' :: jsonEscapeAll s.data ++ ['"']

/-- The text `enc.Encode(c)` writes after `enc.SetIndent("", "    ")`: the two
fields in declaration order under their tags, four-space indentation, and the
newline the encoder adds. -/
def encodeCurrent (c : current) : String :=
  String.mk ("\x7b\n    \"version\": ".data ++ jsonString c.Version ++
    ",\n    \"sha256\": ".data ++ jsonString c.Sha256 ++ "\n\x7d\n".data)

/-- The UTF-8 bytes of a text. -/
def utf8 : List Char → List UInt8
  | [] => []
  | c :: cs => String.utf8EncodeChar c ++ utf8 cs

/-! ## The file system -/

/-- File contents. -/
abbrev Bytes := List UInt8

/-- What a location holds. -/
inductive Node
  | file (data : Bytes)
  | dir
deriving DecidableEq, Repr

/-- A volume: its nodes and the number of bytes it can still take. -/
structure FS where
  nodes : Loc → Option Node
  free : Nat

/-- The error numbers the model produces. -/
inductive Errno
  | ENOENT
  | ENOTDIR
  | EISDIR
  | ENOSPC
  | EEXIST
  | EBADF
deriving DecidableEq, Repr

/-- The `*fs.PathError` of a failed call: operation, path, cause. -/
structure PathError where
  op : String
  path : String
  err : Errno
deriving DecidableEq, Repr

/-- Replace the node at a location. -/
def FS.set (fs : FS) (l : Loc) (n : Node) : FS :=
  { nodes := fun q => if q = l then some n else fs.nodes q, free := fs.free }

/-- The size of the file at a location, zero when there is none. -/
def FS.size (fs : FS) (l : Loc) : Nat :=
  match fs.nodes l with
  | some (Node.file d) => d.length
  | _ => 0

/-- Model of `os.Open`: the handle is the location of the opened node. Opening
a directory succeeds (reading it fails). -/
def osOpen (fs : FS) (path : String) : Except PathError Loc :=
  if path.data = [] then Except.error { op := "open", path := path, err := Errno.ENOENT }
  else
    match fs.nodes (resolve path) with
    | some _ => Except.ok (resolve path)
    | none => Except.error { op := "open", path := path, err := Errno.ENOENT }

/-- Model of reading a handle to the end (the reads of `io.Copy`). -/
def osReadAll (fs : FS) (f : Loc) (path : String) : Except PathError Bytes :=
  match fs.nodes f with
  | some (Node.file data) => Except.ok data
  | some Node.dir => Except.error { op := "read", path := path, err := Errno.EISDIR }
  | none => Except.error { op := "read", path := path, err := Errno.EBADF }

/-- Model of `os.Create`: the parent must be a directory and the target must
not be one; an existing file is truncated, which gives its bytes back to the
volume. -/
def osCreate (fs : FS) (path : String) : Except PathError FS :=
  if path.data = [] then Except.error { op := "open", path := path, err := Errno.ENOENT }
  else
    match fs.nodes (resolve path).parent with
    | some Node.dir =>
      match fs.nodes (resolve path) with
      | some Node.dir => Except.error { op := "open", path := path, err := Errno.EISDIR }
      | some (Node.file old) =>
        Except.ok { nodes := (fs.set (resolve path) (Node.file [])).nodes,
                    free := fs.free + old.length }
      | none => Except.ok (fs.set (resolve path) (Node.file []))
    | some (Node.file _) => Except.error { op := "open", path := path, err := Errno.ENOTDIR }
    | none => Except.error { op := "open", path := path, err := Errno.ENOENT }

/-- Model of writing to an open file at its end: when the volume has too
little room, the bytes that fit are written and the call fails. -/
def osWrite (fs : FS) (w : Loc) (path : String) (data : Bytes) : FS × Option PathError :=
  match fs.nodes w with
  | some (Node.file old) =>
    if data.length ≤ fs.free then
      ({ nodes := (fs.set w (Node.file (old ++ data))).nodes, free := fs.free - data.length }, none)
    else
      ({ nodes := (fs.set w (Node.file (old ++ data.take fs.free))).nodes, free := 0 },
        some { op := "write", path := path, err := Errno.ENOSPC })
  | _ => (fs, some { op := "write", path := path, err := Errno.EBADF })

/-- Model of `os.Mkdir`. -/
def osMkdir (fs : FS) (l : Loc) : Except PathError FS :=
  match fs.nodes l with
  | some _ => Except.error { op := "mkdir", path := String.mk l.render, err := Errno.EEXIST }
  | none =>
    match fs.nodes l.parent with
    | some Node.dir => Except.ok (fs.set l Node.dir)
    | some (Node.file _) =>
      Except.error { op := "mkdir", path := String.mk l.render, err := Errno.ENOTDIR }
    | none => Except.error { op := "mkdir", path := String.mk l.render, err := Errno.ENOENT }

/-- The recursion of `os.MkdirAll` on the elements of the target, last element
first: an existing directory ends it with success, an existing file with an
error, and a missing one is made after its parent. -/
def mkdirAllAux (rooted : Bool) (fs : FS) : List (List Char) → Except PathError FS
  | [] =>
    match fs.nodes { rooted := rooted, comps := [] } with
    | some Node.dir => Except.ok fs
    | some (Node.file _) =>
      Except.error { op := "mkdir", path := String.mk (Loc.render { rooted := rooted, comps := [] }),
                     err := Errno.ENOTDIR }
    | none =>
      Except.error { op := "mkdir", path := String.mk (Loc.render { rooted := rooted, comps := [] }),
                     err := Errno.ENOENT }
  | c :: rest =>
    match fs.nodes { rooted := rooted, comps := (c :: rest).reverse } with
    | some Node.dir => Except.ok fs
    | some (Node.file _) =>
      Except.error { op := "mkdir",
                     path := String.mk (Loc.render { rooted := rooted, comps := (c :: rest).reverse }),
                     err := Errno.ENOTDIR }
    | none =>
      match mkdirAllAux rooted fs rest with
      | Except.error err => Except.error err
      | Except.ok fs1 => osMkdir fs1 { rooted := rooted, comps := (c :: rest).reverse }

/-- Model of `os.MkdirAll`. -/
def osMkdirAll (fs : FS) (path : String) : Except PathError FS :=
  if path.data = [] then Except.error { op := "mkdir", path := path, err := Errno.ENOENT }
  else mkdirAllAux (resolve path).rooted fs (resolve path).comps.reverse

/-! ## gzip (`compress/gzip`) -/

/-- The gzip codec as the program sees it: the stream a `gzip.Writer` emits for
the data written to it, the reader that undoes it, and how many bytes of the
stream the writer hands to its destination before `Close` is called.  `Close`
always has the trailer left to write, and a writer that was given no data has
written nothing before `Close`. -/
structure Gzip where
  compress : Bytes → Bytes
  decompress : Bytes → Option Bytes
  eager : Bytes → Nat
  roundtrip : ∀ d, decompress (compress d) = some d
  eager_lt : ∀ d, eager d < (compress d).length
  eager_nil : eager [] = 0

/-- Undo `frameGzip`. -/
def unframe (s : Bytes) : Option Bytes :=
  match s with
  | 31 :: 139 :: rest =>
    match rest.reverse with
    | 0 :: r => some r.reverse
    | _ => none
  | _ => none

/-- A small codec that satisfies the laws of `Gzip`: the data between a two
byte header, written with the first data, and a one byte trailer, written by
`Close`. -/
def frameGzip : Gzip where
  compress d := 31 :: 139 :: d ++ [0]
  decompress := unframe
  eager d := if d = [] then 0 else 2
  roundtrip d := by simp [unframe]
  eager_lt d := by
    by_cases h : d = [] <;> simp [h]
  eager_nil := rfl

/-! ## The program -/

/-- The state after an `os.MkdirAll` whose result is not looked at. -/
def afterMkdirAll (fs : FS) (path : String) : FS :=
  match osMkdirAll fs path with
  | Except.ok fs3 => fs3
  | Except.error _ => fs

/-- The state a successful `createGzipFile` leaves: the target holds as much
of the stream as the volume had room for once the old target was truncated. -/
def gzWritten (z : Gzip) (fs : FS) (t : Loc) (data : Bytes) : FS :=
  { nodes := (fs.set t (Node.file ((z.compress data).take (fs.free + fs.size t)))).nodes,
    free := fs.free + fs.size t - (z.compress data).length }

/-- The function `generateSha256`. -/
def generateSha256 (fs : FS) (path : String) : Except PathError Bytes :=
  match osOpen fs path with
  | Except.error err => Except.error err
  | Except.ok file =>
    -- defer file.Close()
    match osReadAll fs file path with
    | Except.error err => Except.error err
    | Except.ok data => Except.ok (Sha256.sum data)

/-- The function `createGzipFile`: the new file system and the returned error.
The deferred `gz.Close()` writes what the writer still holds and its error is
dropped: after a failed read of the source that is the stream of no data, after
a failed write nothing (the writer keeps its error), after a successful copy
the rest of the stream. -/
def createGzipFile (z : Gzip) (fs : FS) (path targetPath : String) : FS × Option PathError :=
  match osOpen fs path with
  | Except.error err => (fs, some err)
  | Except.ok f =>
    -- defer f.Close()
    match osCreate fs targetPath with
    | Except.error err => (fs, some err)
    | Except.ok fs1 =>
      -- defer w.Close(); gz := gzip.NewWriter(w); defer gz.Close()
      match osReadAll fs1 f path with
      | Except.error err =>
        ((osWrite fs1 (resolve targetPath) targetPath (z.compress [])).1, some err)
      | Except.ok data =>
        match osWrite fs1 (resolve targetPath) targetPath
            ((z.compress data).take (z.eager data)) with
        | (fs2, some err) => (fs2, some err)
        | (fs2, none) =>
          ((osWrite fs2 (resolve targetPath) targetPath
              ((z.compress data).drop (z.eager data))).1, none)

/-- The bytes of the manifest for input data `data`. -/
def manifestBytes (cfg : Config) (data : Bytes) : Bytes :=
  utf8 (encodeCurrent { Version := cfg.version, Sha256 := sprintfHex (Sha256.sum data) }).data

/-- The state after the manifest for `data` has been written in full. -/
def manifestWritten (cfg : Config) (fs : FS) (platform : String) (data : Bytes) : FS :=
  { nodes := (fs.set (resolve (jsonPath cfg.genDir platform))
      (Node.file (manifestBytes cfg data))).nodes,
    free := fs.free + fs.size (resolve (jsonPath cfg.genDir platform)) -
      (manifestBytes cfg data).length }

/-- What a task does to the channels and the wait group. -/
inductive Event
  | sendUpdate (platform : String)
  | sendError (err : PathError)
  | wgDone
deriving DecidableEq, Repr

/-- The body of `createUpdate` up to its return: the new file system and the
channel sends. -/
def createUpdateBody (z : Gzip) (cfg : Config) (fs : FS) (path platform : String) :
    FS × List Event :=
  match generateSha256 fs path with
  | Except.error err => (fs, [Event.sendError err])
  | Except.ok checksum =>
    let c : current := { Version := cfg.version, Sha256 := sprintfHex checksum }
    match osCreate fs (jsonPath cfg.genDir platform) with
    | Except.error err => (fs, [Event.sendError err])
    | Except.ok fs1 =>
      -- defer jsonFile.Close()
      match osWrite fs1 (resolve (jsonPath cfg.genDir platform)) (jsonPath cfg.genDir platform)
          (utf8 (encodeCurrent c).data) with
      | (fs2, some err) => (fs2, [Event.sendError err])
      | (fs2, none) =>
        -- os.MkdirAll(filepath.Join(genDir, version), 0755): the result is not looked at
        match createGzipFile z (afterMkdirAll fs2 (versionDir cfg.genDir cfg.version)) path (gzipPath cfg.genDir cfg.version platform) with
        | (fs4, some err) => (fs4, [Event.sendError err])
        | (fs4, none) => (fs4, [Event.sendUpdate platform])

/-- The function `createUpdate`: its body, then the deferred `wg.Done()`. -/
def createUpdate (z : Gzip) (cfg : Config) (fs : FS) (path platform : String) :
    FS × List Event :=
  ((createUpdateBody z cfg fs path platform).1,
    (createUpdateBody z cfg fs path platform).2 ++ [Event.wgDone])

/-! ## Example states -/

/-- The configuration of the end-to-end scenario: version `1.2.0`, output
directory `public`. -/
def cfg0 : Config := { version := "1.2.0", genDir := "public" }

/-- A volume with the input `bin/linux-amd64` (content `A`), the output
directory `public`, and room for 4096 bytes. -/
def fs0 : FS :=
  { nodes := fun l =>
      if l = resolve "bin/linux-amd64" then some (Node.file [65])
      else if l = resolve "bin" then some Node.dir
      else if l = resolve "public" then some Node.dir
      else none,
    free := 4096 }

/-- The tool is run on its own output: the input of the task is the archive
`public/1.2.0/linux-amd64.gz` (content `A`) of an earlier run. -/
def fsAlias : FS :=
  { nodes := fun l =>
      if l = resolve "public/1.2.0/linux-amd64.gz" then some (Node.file [65])
      else if l = resolve "public/1.2.0" then some Node.dir
      else if l = resolve "public" then some Node.dir
      else none,
    free := 4096 }

/-- The volume of `fs0` with room for two more bytes only. -/
def fsTight : FS := { nodes := fs0.nodes, free := 2 }

/-- The volume of `fs0` with a regular file where the version directory
`public/1.2.0` should go. -/
def fsBlocked : FS :=
  { nodes := fun l => if l = resolve "public/1.2.0" then some (Node.file []) else fs0.nodes l,
    free := 4096 }

/-- The volume of `fs0` with room for the 109 bytes of the manifest and one
byte more. -/
def fsNoRoom : FS := { nodes := fs0.nodes, free := 110 }

/-- The volume of `fs0` with the working directory on it. -/
def fsCwd : FS :=
  { nodes := fun l => if l = Loc.cwd then some Node.dir else fs0.nodes l, free := 4096 }

/-- The volume of the end-to-end scenario: the inputs `bin/linux-amd64`
(content `A`) and `bin/darwin-arm64` (content `B`) and the output directory. -/
def fsTwo : FS :=
  { nodes := fun l =>
      if l = resolve "bin/darwin-arm64" then some (Node.file [66]) else fs0.nodes l,
    free := 4096 }

/-- The volume of `fs0` with no room left. -/
def fsFull : FS := { nodes := fs0.nodes, free := 0 }

/-! ## `main`: goroutines, channels and the wait group -/

/-- What an invocation fixes: the codec, the package variables, the source
directory and the platform flag. -/
structure Params where
  z : Gzip
  cfg : Config
  appPath : String
  platform : String

/-- A line `main` prints: `Update created for platform: p` or `Error: err`. -/
inductive Line
  | created (platform : String)
  | error (err : PathError)
deriving DecidableEq, Repr

/-- A `createUpdate` goroutine: its arguments, the events of its run (none
while it is still in the body, before its channel send), and how many of them
it has performed. -/
structure Goroutine where
  task : Task
  events : Option (List Event)
  pc : Nat

/-- The event a goroutine performs next. -/
def Goroutine.next (g : Goroutine) : Option Event :=
  match g.events with
  | none => none
  | some es => es[g.pc]?

/-- The line a goroutine's send makes `main` print. -/
def Goroutine.line (g : Goroutine) : Option Line :=
  match g.events with
  | some (Event.sendUpdate p :: _) => some (Line.created p)
  | some (Event.sendError e :: _) => some (Line.error e)
  | _ => none

/-- The line of a goroutine whose send has been received. -/
def Goroutine.reported (g : Goroutine) : Option Line :=
  if 1 ≤ g.pc then g.line else none

/-- Where the main goroutine is: in the launch loop with the entries still to
go, at the `select` with its local `updates` and `errors` possibly set to nil,
or past the `break`. -/
inductive MainPc
  | launching (files : List String)
  | selecting (updatesNil errorsNil : Bool)
  | exited
deriving DecidableEq, Repr

/-- Where the closing goroutine is: not started, in `wg.Wait()`, past it,
past `close(updates)`, past `close(errors)`. -/
inductive CloserPc
  | idle
  | waiting
  | woke
  | closedUpdates
  | closedBoth
deriving DecidableEq, Repr

/-- The state of the process. -/
structure Sys where
  main : MainPc
  tasks : List Goroutine
  wg : Nat
  closer : CloserPc
  out : List Line
  crashed : Bool

/-- Whether `updates` has been closed. -/
def Sys.updatesClosed (s : Sys) : Bool :=
  s.closer = CloserPc.closedUpdates ∨ s.closer = CloserPc.closedBoth

/-- Whether `errors` has been closed. -/
def Sys.errorsClosed (s : Sys) : Bool := s.closer = CloserPc.closedBoth

/-- The steps of the goroutines. -/
inductive Action
  | launch
  | spawnCloser
  | body (i : Nat) (fs : FS)
  | recv (i : Nat)
  | recvClosedUpdates
  | recvClosedErrors
  | done (i : Nat)
  | sendOnClosed (i : Nat)
  | wake
  | closeUpdates
  | closeErrors

/-- The state at the start of the launch loop. -/
def Sys.init (files : List String) : Sys :=
  { main := MainPc.launching files, tasks := [], wg := 0, closer := CloserPc.idle, out := [],
    crashed := false }

/-- The main goroutine after one pass of the `select` body: the loop ends when
both local channels are nil. -/
def afterSelect (updatesNil errorsNil : Bool) : MainPc :=
  if updatesNil && errorsNil then MainPc.exited else MainPc.selecting updatesNil errorsNil

/-- One step of one goroutine; `none` when the step is not enabled.
* `launch`: one pass of the `range files` loop, `wg.Add(1)` and the `go`
  statement.
* `spawnCloser`: the loop is over, the closing goroutine is started and `main`
  enters the `for`/`select` loop.
* `body i fs`: goroutine `i` runs `createUpdate` against the file-system state
  `fs` up to its channel send.
* `recv i`: the send of goroutine `i` meets the matching case of `select` (the
  channels are unbuffered), and `main` prints the line.
* `recvClosedUpdates`, `recvClosedErrors`: `select` receives from a closed
  channel and sets the local variable to nil.
* `done i`: the deferred `wg.Done()` of goroutine `i`; a counter already at
  zero would panic.
* `sendOnClosed i`: the send of goroutine `i` finds its channel closed and
  panics.
* `wake`, `closeUpdates`, `closeErrors`: the closing goroutine returns from
  `wg.Wait()` once the counter is zero and closes the channels in turn.
Nothing steps once `main` has returned or a goroutine has panicked. -/
def step (p : Params) (s : Sys) (a : Action) : Option Sys :=
  if s.crashed then none
  else if s.main = MainPc.exited then none
  else
    match a with
    | Action.launch =>
      match s.main with
      | MainPc.launching (f :: rest) =>
        some { s with
          main := MainPc.launching rest
          wg := s.wg + 1
          tasks := s.tasks ++
            [{ task := { path := Join [p.appPath, f], platform := p.platform },
               events := none, pc := 0 }] }
      | _ => none
    | Action.spawnCloser =>
      match s.main with
      | MainPc.launching [] =>
        some { s with main := MainPc.selecting false false, closer := CloserPc.waiting }
      | _ => none
    | Action.body i fs =>
      match s.tasks[i]? with
      | some g =>
        match g.events with
        | none =>
          some { s with
            tasks := s.tasks.set i
              { g with events := some (createUpdate p.z p.cfg fs g.task.path g.task.platform).2 } }
        | some _ => none
      | none => none
    | Action.recv i =>
      match s.tasks[i]? with
      | some g =>
        match g.next, s.main with
        | some (Event.sendUpdate pl), MainPc.selecting false en =>
          if s.updatesClosed then none
          else some { s with
            tasks := s.tasks.set i { g with pc := g.pc + 1 }
            out := s.out ++ [Line.created pl]
            main := afterSelect false en }
        | some (Event.sendError e), MainPc.selecting un false =>
          if s.errorsClosed then none
          else some { s with
            tasks := s.tasks.set i { g with pc := g.pc + 1 }
            out := s.out ++ [Line.error e]
            main := afterSelect un false }
        | _, _ => none
      | none => none
    | Action.recvClosedUpdates =>
      match s.main with
      | MainPc.selecting false en =>
        if s.updatesClosed then some { s with main := afterSelect true en } else none
      | _ => none
    | Action.recvClosedErrors =>
      match s.main with
      | MainPc.selecting un false =>
        if s.errorsClosed then some { s with main := afterSelect un true } else none
      | _ => none
    | Action.done i =>
      match s.tasks[i]? with
      | some g =>
        match g.next with
        | some Event.wgDone =>
          if s.wg = 0 then some { s with crashed := true }
          else some { s with tasks := s.tasks.set i { g with pc := g.pc + 1 }, wg := s.wg - 1 }
        | _ => none
      | none => none
    | Action.sendOnClosed i =>
      match s.tasks[i]? with
      | some g =>
        match g.next with
        | some (Event.sendUpdate _) =>
          if s.updatesClosed then some { s with crashed := true } else none
        | some (Event.sendError _) =>
          if s.errorsClosed then some { s with crashed := true } else none
        | _ => none
      | none => none
    | Action.wake =>
      match s.closer with
      | CloserPc.waiting => if s.wg = 0 then some { s with closer := CloserPc.woke } else none
      | _ => none
    | Action.closeUpdates =>
      match s.closer with
      | CloserPc.woke => some { s with closer := CloserPc.closedUpdates }
      | _ => none
    | Action.closeErrors =>
      match s.closer with
      | CloserPc.closedUpdates => some { s with closer := CloserPc.closedBoth }
      | _ => none

/-- Run a schedule. -/
def run (p : Params) (s : Sys) : List Action → Option Sys
  | [] => some s
  | a :: as =>
    match step p s a with
    | some s1 => run p s1 as
    | none => none

/-- The function `main` from its launch loop on, for the directory entries
`files` that `os.ReadDir` returned, under a schedule of goroutine steps: the
state the process is in after the schedule, if each of its steps was enabled. -/
def main (p : Params) (files : List String) (schedule : List Action) : Option Sys :=
  run p (Sys.init files) schedule

/-- The states an invocation on the directory entries `files` can reach. -/
def Reachable (p : Params) (files : List String) (s : Sys) : Prop :=
  ∃ as, main p files as = some s

/-- How many steps are left at most. -/
def Sys.measure (s : Sys) : Nat :=
  (match s.main with
    | MainPc.launching files => 4 * files.length + 3
    | MainPc.selecting un en => (if un then 0 else 1) + (if en then 0 else 1)
    | MainPc.exited => 0) +
  (s.tasks.map (fun g => match g.events with
    | none => 3
    | some es => es.length - g.pc)).sum +
  (match s.closer with
    | CloserPc.idle => 3
    | CloserPc.waiting => 3
    | CloserPc.woke => 2
    | CloserPc.closedUpdates => 1
    | CloserPc.closedBoth => 0) +
  (if s.crashed then 0 else 1)

/-- A channel send. -/
def Event.isSend : Event → Bool
  | Event.sendUpdate _ => true
  | Event.sendError _ => true
  | Event.wgDone => false

/-- An `Error:` line. -/
def Line.isError : Line → Bool
  | Line.error _ => true
  | Line.created _ => false

/-- An `Update created` line. -/
def Line.isCreated : Line → Bool
  | Line.created _ => true
  | Line.error _ => false

/-- A goroutine whose run sends an error. -/
def Goroutine.failed (g : Goroutine) : Bool :=
  match g.line with
  | some (Line.error _) => true
  | _ => false

/-- The directory entries the launch loop has still to visit. -/
def MainPc.rest : MainPc → List String
  | MainPc.launching files => files
  | _ => []

/-- What holds in every reachable state. -/
structure Inv (p : Params) (files : List String) (s : Sys) : Prop where
  notCrashed : s.crashed = false
  shape : ∀ g ∈ s.tasks, (g.events = none ∧ g.pc = 0) ∨
    ∃ e, e.isSend = true ∧ g.events = some [e, Event.wgDone] ∧ g.pc ≤ 2
  counter : s.wg = s.tasks.countP (fun g => decide (g.pc < 2))
  printed : s.out.Perm (s.tasks.filterMap Goroutine.reported)
  launched : s.tasks.map Goroutine.task ++ launch p.appPath p.platform s.main.rest =
    launch p.appPath p.platform files
  closerIdle : s.closer = CloserPc.idle ↔ ∃ fs, s.main = MainPc.launching fs
  closerPast : s.closer = CloserPc.woke ∨ s.closer = CloserPc.closedUpdates ∨
    s.closer = CloserPc.closedBoth → s.wg = 0
  mainSel : ∀ un en, s.main = MainPc.selecting un en →
    (un = true → s.updatesClosed = true) ∧ (en = true → s.errorsClosed = true) ∧
      ¬ (un = true ∧ en = true)
  mainExit : s.main = MainPc.exited → s.closer = CloserPc.closedBoth

/-- The invocation of the end-to-end scenario with the platform flag
`linux-amd64`. -/
def params0 : Params :=
  { z := frameGzip, cfg := cfg0, appPath := "bin", platform := "linux-amd64" }

/-- A schedule for two directory entries of which the second is missing when
its task runs: both tasks run their bodies, the error arrives first. -/
def schedule0 : List Action :=
  [Action.launch, Action.body 0 fs0, Action.launch, Action.spawnCloser, Action.body 1 fs0,
   Action.recv 1, Action.recv 0, Action.done 0, Action.done 1, Action.wake,
   Action.closeUpdates, Action.recvClosedUpdates, Action.closeErrors, Action.recvClosedErrors]

/-- The schedule `schedule0` with the tasks running on a full volume. -/
def schedule1 : List Action :=
  [Action.launch, Action.body 0 fsFull, Action.launch, Action.spawnCloser, Action.body 1 fsFull,
   Action.recv 1, Action.recv 0, Action.done 0, Action.done 1, Action.wake,
   Action.closeUpdates, Action.recvClosedUpdates, Action.closeErrors, Action.recvClosedErrors]

/-- The directory entries of the end-to-end scenario. -/
def files0 : List String := ["linux-amd64", "darwin-arm64"]

/-- The state `schedule0` ends in. -/
def final0 : Sys := (main params0 files0 schedule0).getD (Sys.init [])

/-! # Theorems -/

/-- The path model on the paths of the end-to-end scenario and on some
corner cases of `filepath.Clean`. -/
theorem path_examples :
    Join ["public", "linux-amd64" ++ ".json"] = "public/linux-amd64.json" ∧
    Join ["public", "1.2.0", "linux-amd64" ++ ".gz"] = "public/1.2.0/linux-amd64.gz" ∧
    Join ["public", "../evil" ++ ".json"] = "evil.json" ∧
    Join ["/a//b/./c", ".."] = "/a/b" ∧
    Join ["", ""] = "" ∧
    Clean "" = "." ∧
    Clean "/../a/" = "/a" ∧
    Clean "../../a/../.." = "../../.." := by
  decide

set_option maxRecDepth 100000 in
/-- The digest model on the test vectors of FIPS 180-4 (the empty message,
`abc`, the 448-bit message) and on the content `A` of the end-to-end
scenario. -/
theorem sha256_test_vectors :
    sprintfHex (Sha256.sum []) =
      "e3b0c44298fc1c149afbf4c8996fb92427ae41e4649b934ca495991b7852b855" ∧
    sprintfHex (Sha256.sum [97, 98, 99]) =
      "ba7816bf8f01cfea414140de5dae2223b00361a396177a9cb410ff61f20015ad" ∧
    sprintfHex (Sha256.sum
        (utf8 "abcdbcdecdefdefgefghfghighijhijkijkljklmklmnlmnomnopnopq".data)) =
      "248d6a61d20638b8e5c026930c3e6039a33ce45964ff2167f6ecedd419db06c1" ∧
    sprintfHex (Sha256.sum [65]) =
      "559aead08264d5795d3909718cdd05abd49572e84fe55590eef31a88a08fdffd" := by
  decide

/-- The manifest of the end-to-end scenario, as text. -/
theorem manifest_example :
    encodeCurrent { Version := "1.2.0", Sha256 := "559aead0" } =
      "\x7b\n    \"version\": \"1.2.0\",\n    \"sha256\": \"559aead0\"\n\x7d\n" ∧
    jsonString "a\"b<c" = "\"a\\\"b\\u003cc\"".data := by
  decide

/-! ## Path lemmas -/

theorem splitSep_ne_nil (s : List Char) : splitSep s ≠ [] := by
  cases s with
  | nil => simp [splitSep]
  | cons c cs =>
    unfold splitSep
    split
    · simp
    · cases h : splitSep cs <;> simp [consHead]

theorem consHead_append (c : Char) (a b : List (List Char)) (h : a ≠ []) :
    consHead c (a ++ b) = consHead c a ++ b := by
  cases a with
  | nil => exact absurd rfl h
  | cons s ss => rfl

theorem splitSep_append_sep (a b : List Char) :
    splitSep (a ++ '/' :: b) = splitSep a ++ splitSep b := by
  induction a with
  | nil => simp [splitSep]
  | cons c cs ih =>
    by_cases hc : c = '/'
    · simp [splitSep, hc, ih]
    · simp [splitSep, hc, ih, consHead_append _ _ _ (splitSep_ne_nil cs)]

theorem splitSep_no_sep (b : List Char) (h : '/' ∉ b) : splitSep b = [b] := by
  induction b with
  | nil => rfl
  | cons c cs ih =>
    have hc : c ≠ '/' := fun e => h (by simp [e])
    have hcs : '/' ∉ cs := fun e => h (by simp [e])
    simp [splitSep, hc, ih hcs, consHead]

theorem splitSep_append_no_sep (a b : List Char) (h : '/' ∉ b) :
    ∃ init last, splitSep a = init ++ [last] ∧ splitSep (a ++ b) = init ++ [last ++ b] := by
  induction a with
  | nil => exact ⟨[], [], by simp [splitSep], by simp [splitSep_no_sep b h]⟩
  | cons c cs ih =>
    obtain ⟨init, last, h1, h2⟩ := ih
    by_cases hc : c = '/'
    · exact ⟨[] :: init, last, by simp [splitSep, hc, h1], by simp [splitSep, hc, h2]⟩
    · cases init with
      | nil =>
        exact ⟨[], c :: last, by simp [splitSep, hc, h1, consHead],
          by simp [splitSep, hc, h2, consHead]⟩
      | cons i is =>
        exact ⟨(c :: i) :: is, last, by simp [splitSep, hc, h1, consHead],
          by simp [splitSep, hc, h2, consHead]⟩

theorem mem_splitSep_no_sep (s : List Char) : ∀ c ∈ splitSep s, '/' ∉ c := by
  induction s with
  | nil => simp [splitSep]
  | cons x xs ih =>
    by_cases hx : x = '/'
    · simp only [splitSep, hx, if_true]
      intro c hc
      rcases List.mem_cons.1 hc with h | h
      · simp [h]
      · exact ih c h
    · simp only [splitSep, hx, if_false]
      cases hs : splitSep xs with
      | nil => exact absurd hs (splitSep_ne_nil xs)
      | cons s ss =>
        rw [hs] at ih
        intro c hc
        simp only [consHead, List.mem_cons] at hc
        rcases hc with h | h
        · subst h
          have := ih s (by simp)
          simp only [List.mem_cons, not_or]
          exact ⟨fun e => hx e.symm, this⟩
        · exact ih c (by simp [h])

theorem splitSep_joinSep (cs : List (List Char)) (hne : cs ≠ [])
    (h : ∀ c ∈ cs, '/' ∉ c) : splitSep (joinSep cs) = cs := by
  induction cs with
  | nil => exact absurd rfl hne
  | cons c rest ih =>
    cases rest with
    | nil => simpa [joinSep] using splitSep_no_sep c (h c (by simp))
    | cons d ds =>
      simp only [joinSep]
      rw [splitSep_append_sep, splitSep_no_sep c (h c (by simp)),
        ih (by simp) (fun x hx => h x (by simp [hx]))]
      rfl

theorem cleanStep_plain (rooted : Bool) (st : List (List Char)) (c : List Char)
    (h : Plain c) : cleanStep rooted st c = c :: st := by
  obtain ⟨h1, h2, h3, _⟩ := h
  simp [cleanStep, h1, h2, h3]

theorem CleanStack.tail {rooted : Bool} {t : List Char} {st : List (List Char)}
    (h : CleanStack rooted (t :: st)) : CleanStack rooted st := by
  cases h with
  | dots _ _ h _ => exact h
  | name _ _ _ h => exact h

theorem CleanStack.no_sep {rooted : Bool} {st : List (List Char)}
    (h : CleanStack rooted st) : ∀ c ∈ st, '/' ∉ c := by
  induction h with
  | nil => simp
  | dots st _ _ _ ih =>
    intro c hc
    rcases List.mem_cons.1 hc with e | e
    · subst e; decide
    · exact ih c e
  | name c st hp _ ih =>
    intro x hx
    rcases List.mem_cons.1 hx with e | e
    · subst e; exact hp.2.2.2
    · exact ih x e

theorem cleanStep_clean (rooted : Bool) (st : List (List Char)) (c : List Char)
    (hst : CleanStack rooted st) (hc : '/' ∉ c) : CleanStack rooted (cleanStep rooted st c) := by
  unfold cleanStep
  split
  · exact hst
  · rename_i h1
    simp only [not_or] at h1
    split
    · rename_i h2
      subst h2
      cases hst with
      | nil =>
        cases rooted with
        | true => simpa using CleanStack.nil
        | false => simpa using CleanStack.dots [] rfl CleanStack.nil (by simp)
      | dots st hr hs hall =>
        simp only [if_true]
        exact CleanStack.dots _ hr (CleanStack.dots st hr hs hall)
          (by intro x hx; rcases List.mem_cons.1 hx with e | e; exact e; exact hall x e)
      | name t st hp hs =>
        simp only [hp.2.2.1, if_false]
        exact hs
    · rename_i h2
      exact CleanStack.name c st ⟨h1.1, h1.2, h2, hc⟩ hst

theorem foldl_cleanStep_clean (rooted : Bool) (cs st : List (List Char))
    (hst : CleanStack rooted st) (hcs : ∀ c ∈ cs, '/' ∉ c) :
    CleanStack rooted (cs.foldl (cleanStep rooted) st) := by
  induction cs generalizing st with
  | nil => exact hst
  | cons c rest ih =>
    simp only [List.foldl_cons]
    exact ih _ (cleanStep_clean rooted st c hst (hcs c (by simp)))
      (fun x hx => hcs x (by simp [hx]))

theorem foldl_cleanStep_reverse (rooted : Bool) (st : List (List Char))
    (hst : CleanStack rooted st) :
    st.reverse.foldl (cleanStep rooted) [] = st := by
  induction hst with
  | nil => rfl
  | dots st hr _ hall ih =>
    simp only [List.reverse_cons, List.foldl_append, List.foldl_cons, List.foldl_nil, ih]
    cases st with
    | nil => simp [cleanStep, hr, dotdot]
    | cons t rest =>
      have : t = dotdot := hall t (by simp)
      subst this
      simp [cleanStep, dotdot]
  | name c st hp _ ih =>
    simp only [List.reverse_cons, List.foldl_append, List.foldl_cons, List.foldl_nil, ih]
    exact cleanStep_plain rooted st c hp

theorem Loc.extend_clean (l : Loc) (cs : List (List Char)) (hl : l.IsClean)
    (hcs : ∀ c ∈ cs, '/' ∉ c) : (l.extend cs).IsClean := by
  simp only [Loc.IsClean, Loc.extend, List.reverse_reverse]
  exact foldl_cleanStep_clean _ _ _ hl hcs

theorem resolveChars_clean (s : List Char) : (resolveChars s).IsClean :=
  Loc.extend_clean _ _ CleanStack.nil (mem_splitSep_no_sep s)

theorem Loc.extend_append (l : Loc) (as bs : List (List Char)) :
    l.extend (as ++ bs) = (l.extend as).extend bs := by
  simp [Loc.extend, List.foldl_append]

theorem Loc.extend_skip (l : Loc) (c : List Char) (h : c = [] ∨ c = ['.']) :
    l.extend [c] = l := by
  cases l
  simp [Loc.extend, cleanStep, h]

theorem Loc.extend_plain (l : Loc) (c : List Char) (h : Plain c) :
    l.extend [c] = { rooted := l.rooted, comps := l.comps ++ [c] } := by
  simp [Loc.extend, cleanStep_plain _ _ _ h]

theorem CleanStack.ne_nil {rooted : Bool} {st : List (List Char)}
    (h : CleanStack rooted st) : ∀ c ∈ st, c ≠ [] := by
  induction h with
  | nil => simp
  | dots st _ _ _ ih =>
    intro c hc
    rcases List.mem_cons.1 hc with e | e
    · subst e; decide
    · exact ih c e
  | name c st hp _ ih =>
    intro x hx
    rcases List.mem_cons.1 hx with e | e
    · subst e; exact hp.1
    · exact ih x e

theorem head?_joinSep (c : List Char) (rest : List (List Char)) (hc : c ≠ []) :
    (joinSep (c :: rest)).head? = c.head? := by
  cases c with
  | nil => exact absurd rfl hc
  | cons x xs => cases rest <;> simp [joinSep]

theorem resolveChars_render (l : Loc) (hl : l.IsClean) : resolveChars l.render = l := by
  obtain ⟨rooted, comps⟩ := l
  have hsep : ∀ c ∈ comps, '/' ∉ c := fun c hc => hl.no_sep c (by simpa using hc)
  have hne : ∀ c ∈ comps, c ≠ [] := fun c hc => hl.ne_nil c (by simpa using hc)
  have hfold : comps.foldl (cleanStep rooted) [] = comps.reverse := by
    have := foldl_cleanStep_reverse rooted comps.reverse hl
    simpa using this
  cases rooted with
  | true =>
    by_cases hc : comps = []
    · subst hc
      simp [Loc.render, resolveChars, Loc.extend, splitSep, joinSep, cleanStep]
    · simp [Loc.render, resolveChars, Loc.extend, splitSep, splitSep_joinSep comps hc hsep,
        cleanStep, hfold]
  | false =>
    by_cases hc : comps = []
    · subst hc
      simp [Loc.render, resolveChars, Loc.extend, splitSep, consHead, cleanStep]
    · obtain ⟨c, rest, rfl⟩ := List.exists_cons_of_ne_nil hc
      have h1 : (joinSep (c :: rest)).head? ≠ some '/' := by
        rw [head?_joinSep c rest (hne c (by simp))]
        intro e
        have := hsep c (by simp)
        cases c with
        | nil => simp at e
        | cons x xs => simp at e; simp [e] at this
      simp [Loc.render, resolveChars, Loc.extend, splitSep_joinSep _ hc hsep, hfold, h1]

theorem resolve_Clean (s : String) : resolve (Clean s) = resolve s := by
  simp only [resolve, Clean]
  exact resolveChars_render _ (resolveChars_clean _)

theorem Clean_Clean (s : String) : Clean (Clean s) = Clean s := by
  simp only [Clean]
  rw [resolveChars_render _ (resolveChars_clean _)]

theorem resolveChars_append_sep (a b : List Char) (ha : a ≠ []) :
    resolveChars (a ++ '/' :: b) = (resolveChars a).extend (splitSep b) := by
  have hh : (a ++ '/' :: b).head? = a.head? := by
    obtain ⟨x, xs, rfl⟩ := List.exists_cons_of_ne_nil ha
    rfl
  simp only [resolveChars, hh, splitSep_append_sep, Loc.extend_append]

theorem resolve_empty (s : String) (h : s.data = []) : resolve s = Loc.cwd := by
  simp [resolve, h, resolveChars, Loc.extend, splitSep, cleanStep, Loc.cwd]

theorem resolveChars_eq_extend_cwd (s : List Char) (h : s.head? ≠ some '/') :
    resolveChars s = Loc.cwd.extend (splitSep s) := by
  simp [resolveChars, Loc.cwd, h]

theorem resolve_Join2 (g x : String) (hx : x.data ≠ []) :
    resolve (Join [g, x]) =
      if g.data = [] then resolve x else (resolve g).extend (splitSep x.data) := by
  by_cases hg : g.data = []
  · simp [Join, hg, hx, resolve_Clean, joinSep]
  · simp only [Join, List.dropWhile, hg, decide_False, if_neg hg]
    rw [resolve_Clean]
    simp only [resolve, List.map, joinSep]
    exact resolveChars_append_sep _ _ hg

theorem resolve_Join3 (g v x : String) :
    resolve (Join [g, v, x]) =
      if g.data = [] then resolve (Join [v, x])
      else ((resolve g).extend (splitSep v.data)).extend (splitSep x.data) := by
  by_cases hg : g.data = []
  · simp [Join, hg]
  · simp only [Join, List.dropWhile, hg, decide_False, if_neg hg]
    rw [resolve_Clean]
    simp only [resolve, List.map, joinSep]
    rw [resolveChars_append_sep _ _ hg, splitSep_append_sep, Loc.extend_append]
    simp

theorem Plain_append_suffix (last sfx : List Char) (h1 : '/' ∉ last) (h2 : '/' ∉ sfx)
    (h3 : 3 ≤ sfx.length) : Plain (last ++ sfx) := by
  have hlen : 3 ≤ (last ++ sfx).length := by
    rw [List.length_append]; omega
  refine ⟨?_, ?_, ?_, ?_⟩
  · intro e
    rw [e] at hlen
    simp at hlen
  · intro e
    rw [e] at hlen
    simp at hlen
  · intro e
    rw [e] at hlen
    simp [dotdot] at hlen
  · simp [h1, h2]

theorem Loc.extend_suffix (l : Loc) (p sfx : List Char) (hs : '/' ∉ sfx)
    (h3 : 3 ≤ sfx.length) :
    ∃ init last, splitSep p = init ++ [last] ∧
      l.extend (splitSep (p ++ sfx)) =
        { rooted := l.rooted, comps := (l.extend init).comps ++ [last ++ sfx] } := by
  obtain ⟨init, last, h1, h2⟩ := splitSep_append_no_sep p sfx hs
  refine ⟨init, last, h1, ?_⟩
  have hl : '/' ∉ last := mem_splitSep_no_sep p last (by simp [h1])
  rw [h2, Loc.extend_append, Loc.extend_plain _ _ (Plain_append_suffix last sfx hl hs h3)]
  rfl

theorem resolveChars_suffix (p sfx : List Char) (hs : '/' ∉ sfx) (h3 : 3 ≤ sfx.length) :
    ∃ (base : Loc) (init : List (List Char)) (last : List Char), splitSep p = init ++ [last] ∧
      resolveChars (p ++ sfx) =
        { rooted := base.rooted, comps := (base.extend init).comps ++ [last ++ sfx] } := by
  obtain ⟨init, last, h1, h2⟩ :=
    Loc.extend_suffix { rooted := (p ++ sfx).head? = some '/', comps := [] } p sfx hs h3
  exact ⟨_, init, last, h1, h2⟩

theorem jsonPath_last (g p : String) :
    ∃ (base : Loc) (init : List (List Char)) (last : List Char), splitSep p.data = init ++ [last] ∧
      resolve (jsonPath g p) =
        { rooted := base.rooted, comps := (base.extend init).comps ++ [last ++ ".json".data] } := by
  have hx : (p ++ ".json").data ≠ [] := by simp
  rw [jsonPath, resolve_Join2 g _ hx]
  by_cases hg : g.data = []
  · simp only [hg, if_true, resolve, String.data_append]
    exact resolveChars_suffix _ _ (by decide) (by decide)
  · simp only [hg, if_false, String.data_append]
    obtain ⟨init, last, h1, h2⟩ :=
      Loc.extend_suffix (resolve g) p.data ".json".data (by decide) (by decide)
    exact ⟨_, init, last, h1, h2⟩

theorem gzipPath_last (g v p : String) :
    ∃ (base : Loc) (init : List (List Char)) (last : List Char), splitSep p.data = init ++ [last] ∧
      resolve (gzipPath g v p) =
        { rooted := base.rooted, comps := (base.extend init).comps ++ [last ++ ".gz".data] } := by
  have hx : (p ++ ".gz").data ≠ [] := by simp
  rw [gzipPath, resolve_Join3 g v _]
  by_cases hg : g.data = []
  · simp only [hg, if_true]
    rw [resolve_Join2 v _ hx]
    by_cases hv : v.data = []
    · simp only [hv, if_true, resolve, String.data_append]
      exact resolveChars_suffix _ _ (by decide) (by decide)
    · simp only [hv, if_false, String.data_append]
      obtain ⟨init, last, h1, h2⟩ :=
        Loc.extend_suffix (resolve v) p.data ".gz".data (by decide) (by decide)
      exact ⟨_, init, last, h1, h2⟩
  · simp only [hg, if_false, String.data_append]
    obtain ⟨init, last, h1, h2⟩ :=
      Loc.extend_suffix ((resolve g).extend (splitSep v.data)) p.data ".gz".data
        (by decide) (by decide)
    exact ⟨_, init, last, h1, h2⟩

/-- The manifest and the archive of one task are never the same file: the last
path element of one ends in `.json`, of the other in `.gz`. -/
theorem jsonPath_ne_gzipPath (g v p : String) :
    resolve (jsonPath g p) ≠ resolve (gzipPath g v p) := by
  obtain ⟨b1, i1, l1, h1, e1⟩ := jsonPath_last g p
  obtain ⟨b2, i2, l2, h2, e2⟩ := gzipPath_last g v p
  intro e
  rw [e1, e2] at e
  have hc := congrArg Loc.comps e
  simp only at hc
  have hl : l1 = l2 := by
    have := h1.symm.trans h2
    have := List.append_inj' this rfl
    simpa using this.2
  subst hl
  have := List.append_inj' hc (by simp)
  have := this.2
  simp at this

theorem jsonPath_ne_empty (g p : String) : (jsonPath g p).data ≠ [] := by
  intro e
  obtain ⟨b1, i1, l1, h1, e1⟩ := jsonPath_last g p
  rw [resolve_empty _ e] at e1
  have := congrArg Loc.comps e1
  simp [Loc.cwd] at this

theorem gzipPath_ne_empty (g v p : String) : (gzipPath g v p).data ≠ [] := by
  intro e
  obtain ⟨b1, i1, l1, h1, e1⟩ := gzipPath_last g v p
  rw [resolve_empty _ e] at e1
  have := congrArg Loc.comps e1
  simp [Loc.cwd] at this

theorem suffix_json_ne_gz (a b : List Char) : a ++ ".json".data ≠ b ++ ".gz".data := by
  intro e
  have := congrArg List.reverse e
  simp at this

theorem jsonPath_ne_gzipPath' (g v p q : String) :
    resolve (jsonPath g p) ≠ resolve (gzipPath g v q) := by
  obtain ⟨b1, i1, l1, _, e1⟩ := jsonPath_last g p
  obtain ⟨b2, i2, l2, _, e2⟩ := gzipPath_last g v q
  intro e
  rw [e1, e2] at e
  have hc := congrArg Loc.comps e
  simp only at hc
  have := (List.append_inj' hc (by simp)).2
  simp only [List.cons.injEq, and_true] at this
  exact suffix_json_ne_gz _ _ this

theorem no_sep_append (p : String) (sfx : String) (hp : '/' ∉ p.data) (hs : '/' ∉ sfx.data) :
    '/' ∉ (p ++ sfx).data := by
  simp [hp, hs]

/-- The location one separator-free element below `genDir` after skipping. -/
theorem resolve_Join2_plain (g x : String) (hx : Plain x.data) :
    resolve (Join [g, x]) = { rooted := (resolve g).rooted, comps := (resolve g).comps ++ [x.data] } := by
  rw [resolve_Join2 g x hx.1]
  by_cases hg : g.data = []
  · have hh : x.data.head? ≠ some '/' := by
      intro e
      have := hx.2.2.2
      cases hd : x.data with
      | nil => simp [hd] at e
      | cons c cs => simp [hd] at e this; exact this.1 e.symm
    simp only [hg, if_true, resolve_empty g hg]
    simp only [resolve]
    rw [resolveChars_eq_extend_cwd _ hh, splitSep_no_sep _ hx.2.2.2, Loc.extend_plain _ _ hx]
  · simp only [hg, if_false]
    rw [splitSep_no_sep _ hx.2.2.2, Loc.extend_plain _ _ hx]

theorem Plain_platform_json (p : String) (hp : '/' ∉ p.data) : Plain (p ++ ".json").data := by
  rw [String.data_append]
  exact Plain_append_suffix _ _ hp (by decide) (by decide)

theorem Plain_platform_gz (p : String) (hp : '/' ∉ p.data) : Plain (p ++ ".gz").data := by
  rw [String.data_append]
  exact Plain_append_suffix _ _ hp (by decide) (by decide)

theorem resolve_jsonPath (g p : String) (hp : '/' ∉ p.data) :
    resolve (jsonPath g p) =
      { rooted := (resolve g).rooted, comps := (resolve g).comps ++ [p.data ++ ".json".data] } := by
  rw [jsonPath, resolve_Join2_plain g _ (Plain_platform_json p hp), String.data_append]

/-- The location of the version directory when the version has no separator. -/
theorem resolve_versionDir (g v : String) (hv : '/' ∉ v.data) :
    resolve (versionDir g v) =
      if v.data = [] ∨ v.data = ['.'] then resolve g
      else (resolve g).extend [v.data] := by
  by_cases hskip : v.data = [] ∨ v.data = ['.']
  · simp only [hskip, if_true]
    rcases hskip with h | h
    · by_cases hg : g.data = []
      · simp [versionDir, Join, hg, h, resolve_empty]
      · have : Join [g, v] = Clean (String.mk (g.data ++ '/' :: v.data)) := by
          simp [Join, hg, joinSep]
        rw [versionDir, this, resolve_Clean]
        simp only [resolve]
        rw [resolveChars_append_sep _ _ hg, h]
        exact Loc.extend_skip _ _ (Or.inl rfl)
    · have hv0 : v.data ≠ [] := by simp [h]
      rw [versionDir, resolve_Join2 g v hv0]
      by_cases hg : g.data = []
      · simp only [hg, if_true, resolve_empty g hg]
        simp [resolve, h, resolveChars, Loc.extend, splitSep, consHead, cleanStep, Loc.cwd]
      · simp only [hg, if_false, h]
        exact Loc.extend_skip _ _ (Or.inr rfl)
  · simp only [hskip, if_false]
    have hv0 : v.data ≠ [] := fun e => hskip (Or.inl e)
    rw [versionDir, resolve_Join2 g v hv0]
    by_cases hg : g.data = []
    · have hh : v.data.head? ≠ some '/' := by
        intro e
        cases hd : v.data with
        | nil => simp [hd] at e
        | cons c cs => simp [hd] at e hv; exact hv.1 e.symm
      simp only [hg, if_true, resolve_empty g hg]
      simp only [resolve]
      rw [resolveChars_eq_extend_cwd _ hh, splitSep_no_sep _ hv]
    · simp only [hg, if_false]
      rw [splitSep_no_sep _ hv]

theorem Loc.render_ne_nil (l : Loc) (hl : l.IsClean) : l.render ≠ [] := by
  obtain ⟨rooted, comps⟩ := l
  cases rooted with
  | true => simp [Loc.render]
  | false =>
    by_cases hc : comps = []
    · simp [Loc.render, hc]
    · obtain ⟨c, rest, rfl⟩ := List.exists_cons_of_ne_nil hc
      have hne : c ≠ [] := hl.ne_nil c (by simp)
      intro e
      have h1 := head?_joinSep c rest hne
      simp only [Loc.render, Bool.false_eq_true, if_false, hc] at e
      rw [e] at h1
      cases c with
      | nil => exact hne rfl
      | cons x xs => simp at h1

theorem Clean_ne_empty (s : String) : (Clean s).data ≠ [] :=
  Loc.render_ne_nil _ (resolveChars_clean _)

/-- Joining in two stages names the same location: the archive sits directly
in the version directory. -/
theorem resolve_Join3_assoc (g v x : String) (hx : x.data ≠ []) :
    resolve (Join [g, v, x]) = resolve (Join [Join [g, v], x]) := by
  by_cases hg : g.data = []
  · by_cases hv : v.data = []
    · simp [Join, hg, hv]
    · have h1 : Join [g, v] = Clean v := by simp [Join, hg, hv, joinSep]
      have h2 : Join [g, v, x] = Join [v, x] := by simp [Join, hg]
      rw [h1, h2, resolve_Join2 _ _ hx, resolve_Join2 _ _ hx]
      simp [hv, Clean_ne_empty, resolve_Clean]
  · have h1 : Join [g, v] = Clean (String.mk (g.data ++ '/' :: v.data)) := by
      simp [Join, hg, joinSep]
    rw [h1, resolve_Join2 _ _ hx, resolve_Join3]
    simp only [hg, if_false, Clean_ne_empty, resolve_Clean]
    simp only [resolve]
    rw [resolveChars_append_sep _ _ hg]

theorem resolve_gzipPath (g v p : String) (hp : '/' ∉ p.data) :
    resolve (gzipPath g v p) =
      { rooted := (resolve (versionDir g v)).rooted,
        comps := (resolve (versionDir g v)).comps ++ [p.data ++ ".gz".data] } := by
  have hP := Plain_platform_gz p hp
  rw [gzipPath, resolve_Join3_assoc _ _ _ hP.1, resolve_Join2_plain _ _ hP, String.data_append]
  rfl

theorem Loc.under_refl (d : Loc) : d.under d := by
  simp [Loc.under]

theorem Loc.under_append (d : Loc) (rest : List (List Char)) (h : dotdot ∉ rest) :
    d.under { rooted := d.rooted, comps := d.comps ++ rest } := by
  simp [Loc.under, h]

theorem Loc.extend_rooted (l : Loc) (cs : List (List Char)) : (l.extend cs).rooted = l.rooted :=
  rfl

theorem under_versionDir (g v : String) (hv : '/' ∉ v.data) (hdd : v.data ≠ dotdot) :
    ∃ rest, dotdot ∉ rest ∧ resolve (versionDir g v) =
      { rooted := (resolve g).rooted, comps := (resolve g).comps ++ rest } := by
  rw [resolve_versionDir g v hv]
  by_cases hskip : v.data = [] ∨ v.data = ['.']
  · exact ⟨[], by simp, by simp [hskip]⟩
  · simp only [hskip, if_false]
    have hP : Plain v.data := ⟨fun e => hskip (Or.inl e), fun e => hskip (Or.inr e), hdd, hv⟩
    refine ⟨[v.data], ?_, Loc.extend_plain _ _ hP⟩
    simp only [List.mem_singleton]
    exact fun e => hdd e.symm

/-! ## File system lemmas -/

theorem FS.set_nodes_same (fs : FS) (l : Loc) (n : Node) : (fs.set l n).nodes l = some n := by
  simp [FS.set]

theorem FS.set_nodes_other (fs : FS) (l q : Loc) (n : Node) (h : q ≠ l) :
    (fs.set l n).nodes q = fs.nodes q := by
  simp [FS.set, h]

theorem FS.ext_iff' (a b : FS) : a = b ↔ a.nodes = b.nodes ∧ a.free = b.free := by
  cases a; cases b; simp

theorem osOpen_ok (fs : FS) (path : String) (f : Loc) (h : osOpen fs path = Except.ok f) :
    f = resolve path ∧ fs.nodes (resolve path) ≠ none ∧ path.data ≠ [] := by
  unfold osOpen at h
  split at h
  · cases h
  · rename_i hp
    split at h
    · rename_i n hn
      cases h
      exact ⟨rfl, by simp [hn], hp⟩
    · cases h

theorem osOpen_of_some (fs : FS) (path : String) (hp : path.data ≠ [])
    (h : fs.nodes (resolve path) ≠ none) : osOpen fs path = Except.ok (resolve path) := by
  unfold osOpen
  rw [if_neg hp]
  cases hn : fs.nodes (resolve path) with
  | none => exact absurd hn h
  | some n => rfl

theorem osReadAll_ok (fs : FS) (f : Loc) (path : String) (data : Bytes)
    (h : osReadAll fs f path = Except.ok data) : fs.nodes f = some (Node.file data) := by
  unfold osReadAll at h
  split at h
  · rename_i d hd
    cases h
    exact hd
  · cases h
  · cases h

theorem osReadAll_of_file (fs : FS) (f : Loc) (path : String) (data : Bytes)
    (h : fs.nodes f = some (Node.file data)) : osReadAll fs f path = Except.ok data := by
  simp [osReadAll, h]

/-- What a successful `os.Create` did. -/
theorem osCreate_ok (fs fs1 : FS) (path : String) (h : osCreate fs path = Except.ok fs1) :
    path.data ≠ [] ∧ fs.nodes (resolve path).parent = some Node.dir ∧
    fs.nodes (resolve path) ≠ some Node.dir ∧
    fs1.nodes = (fs.set (resolve path) (Node.file [])).nodes ∧
    fs1.free = fs.free + fs.size (resolve path) := by
  unfold osCreate at h
  split at h
  · cases h
  · rename_i hp
    split at h
    · rename_i hpar
      split at h
      · cases h
      · rename_i old hold
        cases h
        exact ⟨hp, hpar, by simp [hold], rfl, by simp [FS.size, hold]⟩
      · rename_i hnone
        cases h
        exact ⟨hp, hpar, by simp [hnone], rfl, by simp [FS.size, hnone, FS.set]⟩
    · cases h
    · cases h

/-- When `os.Create` succeeds. -/
theorem osCreate_of (fs : FS) (path : String) (hp : path.data ≠ [])
    (hpar : fs.nodes (resolve path).parent = some Node.dir)
    (hnd : fs.nodes (resolve path) ≠ some Node.dir) :
    osCreate fs path = Except.ok
      { nodes := (fs.set (resolve path) (Node.file [])).nodes,
        free := fs.free + fs.size (resolve path) } := by
  unfold osCreate
  rw [if_neg hp, hpar]
  cases hn : fs.nodes (resolve path) with
  | none => simp [FS.size, hn, FS.set]
  | some n =>
    cases n with
    | dir => exact absurd hn hnd
    | file old => simp [FS.size, hn]

/-- What a write to a file did. -/
theorem osWrite_file (fs : FS) (w : Loc) (path : String) (old data : Bytes)
    (h : fs.nodes w = some (Node.file old)) :
    (osWrite fs w path data).1.nodes = (fs.set w (Node.file (old ++ data.take fs.free))).nodes ∧
    (osWrite fs w path data).1.free = fs.free - data.length ∧
    ((osWrite fs w path data).2 = none ↔ data.length ≤ fs.free) := by
  unfold osWrite
  rw [h]
  by_cases hle : data.length ≤ fs.free
  · simp [hle, List.take_of_length_le hle]
  · simp [hle]
    omega

theorem osMkdir_ok (fs fs1 : FS) (l : Loc) (h : osMkdir fs l = Except.ok fs1) :
    fs.nodes l = none ∧ fs1 = fs.set l Node.dir := by
  unfold osMkdir at h
  split at h
  · cases h
  · rename_i hn
    split at h
    · cases h; exact ⟨hn, rfl⟩
    · cases h
    · cases h

/-- A successful `mkdirAllAux` keeps every node there was and the free space,
and adds directories only. -/
theorem mkdirAllAux_ok (rooted : Bool) (cs : List (List Char)) (fs fs1 : FS)
    (h : mkdirAllAux rooted fs cs = Except.ok fs1) :
    fs1.free = fs.free ∧ ∀ q, fs1.nodes q = fs.nodes q ∨
      (fs.nodes q = none ∧ fs1.nodes q = some Node.dir) := by
  induction cs generalizing fs1 with
  | nil =>
    unfold mkdirAllAux at h
    split at h
    · cases h; exact ⟨rfl, fun q => Or.inl rfl⟩
    · cases h
    · cases h
  | cons c rest ih =>
    unfold mkdirAllAux at h
    split at h
    · cases h; exact ⟨rfl, fun q => Or.inl rfl⟩
    · cases h
    · split at h
      · cases h
      · rename_i fs0 h0
        obtain ⟨hf, hq⟩ := ih fs0 h0
        obtain ⟨hn, rfl⟩ := osMkdir_ok _ _ _ h
        refine ⟨hf, fun q => ?_⟩
        by_cases hql : q = { rooted := rooted, comps := (c :: rest).reverse }
        · subst hql
          rcases hq _ with e | ⟨_, e⟩
          · right
            exact ⟨by rw [← e]; exact hn, FS.set_nodes_same _ _ _⟩
          · rw [e] at hn; cases hn
        · rw [FS.set_nodes_other _ _ _ _ hql]
          exact hq q

theorem afterMkdirAll_spec (fs : FS) (path : String) :
    (afterMkdirAll fs path).free = fs.free ∧ ∀ q, (afterMkdirAll fs path).nodes q = fs.nodes q ∨
      (fs.nodes q = none ∧ (afterMkdirAll fs path).nodes q = some Node.dir) := by
  unfold afterMkdirAll
  cases h : osMkdirAll fs path with
  | error e => exact ⟨rfl, fun q => Or.inl rfl⟩
  | ok fs3 =>
    unfold osMkdirAll at h
    split at h
    · cases h
    · exact mkdirAllAux_ok _ _ _ _ h

theorem afterMkdirAll_some (fs : FS) (path : String) (q : Loc) (n : Node)
    (h : fs.nodes q = some n) : (afterMkdirAll fs path).nodes q = some n := by
  rcases (afterMkdirAll_spec fs path).2 q with e | ⟨e, _⟩
  · rw [e, h]
  · rw [h] at e; cases e

theorem FS.set_set (fs : FS) (l : Loc) (a b : Node) :
    ((fs.set l a).set l b).nodes = (fs.set l b).nodes := by
  funext q
  by_cases h : q = l <;> simp [FS.set, h]

theorem FS.set_nodes_congr (a b : FS) (l : Loc) (n : Node) (h : a.nodes = b.nodes) :
    (a.set l n).nodes = (b.set l n).nodes := by
  funext q
  simp [FS.set, h]

theorem take_eager_append (zs : Bytes) (e F : Nat) (h : e ≤ F) :
    zs.take e ++ (zs.drop e).take (F - e) = zs.take F := by
  have : F = e + (F - e) := by omega
  conv_rhs => rw [this, List.take_add]

/-- What a successful `createGzipFile` did. -/
theorem createGzipFile_ok (z : Gzip) (fs fs1 : FS) (path t : String)
    (h : createGzipFile z fs path t = (fs1, none)) :
    ∃ data, path.data ≠ [] ∧ fs.nodes (resolve path) ≠ none ∧ t.data ≠ [] ∧
      fs.nodes (resolve t).parent = some Node.dir ∧ fs.nodes (resolve t) ≠ some Node.dir ∧
      (fs.set (resolve t) (Node.file [])).nodes (resolve path) = some (Node.file data) ∧
      z.eager data ≤ fs.free + fs.size (resolve t) ∧
      fs1 = gzWritten z fs (resolve t) data := by
  unfold createGzipFile at h
  cases ho : osOpen fs path with
  | error e => simp only [ho] at h; cases h
  | ok f =>
    obtain ⟨rfl, hsome, hp⟩ := osOpen_ok _ _ _ ho
    cases hc : osCreate fs t with
    | error e => simp only [ho, hc] at h; cases h
    | ok fsc =>
      obtain ⟨ht, hpar, hnd, hnodes, hfree⟩ := osCreate_ok _ _ _ hc
      cases hr : osReadAll fsc (resolve path) path with
      | error e => simp only [ho, hc, hr] at h; cases h
      | ok data =>
        simp only [ho, hc, hr] at h
        have hdata := osReadAll_ok _ _ _ _ hr
        rw [hnodes] at hdata
        have htfile : fsc.nodes (resolve t) = some (Node.file []) := by
          rw [hnodes]; exact FS.set_nodes_same _ _ _
        obtain ⟨hw1, hw2, hw3⟩ := osWrite_file fsc (resolve t) t []
          ((z.compress data).take (z.eager data)) htfile
        have hlen : ((z.compress data).take (z.eager data)).length = z.eager data := by
          rw [List.length_take]
          exact Nat.min_eq_left (Nat.le_of_lt (z.eager_lt data))
        cases hw : osWrite fsc (resolve t) t ((z.compress data).take (z.eager data)) with
        | mk fs2 err =>
          rw [hw] at h hw1 hw2 hw3
          cases err with
          | some e => cases h
          | none =>
            simp only at h hw1 hw2 hw3
            have hle : z.eager data ≤ fsc.free := by
              have := hw3.1 trivial
              rwa [hlen] at this
            rw [hlen] at hw2
            have hfile2 : fs2.nodes (resolve t) =
                some (Node.file ((z.compress data).take (z.eager data))) := by
              rw [hw1, List.take_of_length_le (by rw [hlen]; exact hle)]
              simp [FS.set]
            obtain ⟨hx1, hx2, _⟩ := osWrite_file fs2 (resolve t) t _
              ((z.compress data).drop (z.eager data)) hfile2
            refine ⟨data, hp, hsome, ht, hpar, hnd, hdata, by rw [← hfree]; exact hle, ?_⟩
            have h1 := congrArg Prod.fst h
            simp only at h1
            rw [← h1, FS.ext_iff']
            constructor
            · rw [hx1, hw2, take_eager_append _ _ _ hle, gzWritten, ← hfree]
              rw [FS.set_nodes_congr fs2 (fsc.set (resolve t) _) _ _ hw1, FS.set_set,
                FS.set_nodes_congr fsc (fs.set (resolve t) _) _ _ hnodes, FS.set_set]
            · rw [hx2, hw2, gzWritten, ← hfree]
              simp only [List.length_drop]
              have := z.eager_lt data
              omega

/-- When `createGzipFile` succeeds. -/
theorem createGzipFile_of (z : Gzip) (fs : FS) (path t : String) (data : Bytes)
    (hp : path.data ≠ []) (hsome : fs.nodes (resolve path) ≠ none) (ht : t.data ≠ [])
    (hpar : fs.nodes (resolve t).parent = some Node.dir)
    (hnd : fs.nodes (resolve t) ≠ some Node.dir)
    (hdata : (fs.set (resolve t) (Node.file [])).nodes (resolve path) = some (Node.file data))
    (hroom : z.eager data ≤ fs.free + fs.size (resolve t)) :
    createGzipFile z fs path t = (gzWritten z fs (resolve t) data, none) := by
  cases hres : createGzipFile z fs path t with
  | mk fs1 err =>
    have hopen := osOpen_of_some fs path hp hsome
    have hcreate := osCreate_of fs t ht hpar hnd
    have hread := osReadAll_of_file
      { nodes := (fs.set (resolve t) (Node.file [])).nodes, free := fs.free + fs.size (resolve t) }
      (resolve path) path data hdata
    have hlen : ((z.compress data).take (z.eager data)).length = z.eager data := by
      rw [List.length_take]
      exact Nat.min_eq_left (Nat.le_of_lt (z.eager_lt data))
    have htfile : (FS.mk (fs.set (resolve t) (Node.file [])).nodes
        (fs.free + fs.size (resolve t))).nodes (resolve t) = some (Node.file []) := by
      simp [FS.set]
    obtain ⟨_, _, hw3⟩ := osWrite_file _ (resolve t) t []
      ((z.compress data).take (z.eager data)) htfile
    have hnone := hw3.2 (by rw [hlen]; exact hroom)
    cases err with
    | none =>
      obtain ⟨d2, _, _, _, _, _, hd2, _, hfs⟩ := createGzipFile_ok z fs fs1 path t hres
      rw [hdata] at hd2
      cases hd2
      rw [hfs]
    | some e =>
      exfalso
      unfold createGzipFile at hres
      rw [hopen] at hres
      simp only [hcreate, hread] at hres
      generalize osWrite _ (resolve t) t ((z.compress data).take (z.eager data)) = r
        at hres hnone
      obtain ⟨fs2, err2⟩ := r
      simp only at hnone
      subst hnone
      simp only at hres
      cases hres

/-! ## `generateSha256` and `createUpdate` -/

theorem generateSha256_ok (fs : FS) (path : String) (sum : Bytes)
    (h : generateSha256 fs path = Except.ok sum) :
    ∃ data, path.data ≠ [] ∧ fs.nodes (resolve path) = some (Node.file data) ∧
      sum = Sha256.sum data := by
  unfold generateSha256 at h
  cases ho : osOpen fs path with
  | error e => simp only [ho] at h; cases h
  | ok f =>
    obtain ⟨rfl, _, hp⟩ := osOpen_ok _ _ _ ho
    cases hr : osReadAll fs (resolve path) path with
    | error e => simp only [ho, hr] at h; cases h
    | ok data =>
      simp only [ho, hr] at h
      cases h
      exact ⟨data, hp, osReadAll_ok _ _ _ _ hr, rfl⟩

theorem generateSha256_of (fs : FS) (path : String) (data : Bytes) (hp : path.data ≠ [])
    (h : fs.nodes (resolve path) = some (Node.file data)) :
    generateSha256 fs path = Except.ok (Sha256.sum data) := by
  unfold generateSha256
  rw [osOpen_of_some fs path hp (by simp [h])]
  simp only [osReadAll_of_file _ _ _ _ h]

/-- What a fully successful manifest write did. -/
theorem manifest_ok (cfg : Config) (fs fs1 fs2 : FS) (platform : String) (data : Bytes)
    (hc : osCreate fs (jsonPath cfg.genDir platform) = Except.ok fs1)
    (hw : osWrite fs1 (resolve (jsonPath cfg.genDir platform)) (jsonPath cfg.genDir platform)
      (manifestBytes cfg data) = (fs2, none)) :
    (manifestBytes cfg data).length ≤ fs.free + fs.size (resolve (jsonPath cfg.genDir platform)) ∧
    fs2 = manifestWritten cfg fs platform data := by
  obtain ⟨_, _, _, hnodes, hfree⟩ := osCreate_ok _ _ _ hc
  have hfile : fs1.nodes (resolve (jsonPath cfg.genDir platform)) = some (Node.file []) := by
    rw [hnodes]; exact FS.set_nodes_same _ _ _
  obtain ⟨h1, h2, h3⟩ := osWrite_file fs1 _ (jsonPath cfg.genDir platform) []
    (manifestBytes cfg data) hfile
  rw [hw] at h1 h2 h3
  simp only at h1 h2 h3
  have hle := h3.1 trivial
  refine ⟨by rw [← hfree]; exact hle, ?_⟩
  rw [FS.ext_iff']
  constructor
  · rw [h1, List.take_of_length_le hle, manifestWritten,
      FS.set_nodes_congr fs1 (fs.set _ _) _ _ hnodes, FS.set_set]
    rfl
  · rw [h2, hfree, manifestWritten]

/-- The states a run of `createUpdate` goes through when every step succeeds. -/
theorem createUpdateBody_ok (z : Gzip) (cfg : Config) (fs : FS) (path platform : String)
    (h : (createUpdateBody z cfg fs path platform).2 = [Event.sendUpdate platform]) :
    ∃ data fs1,
      generateSha256 fs path = Except.ok (Sha256.sum data) ∧
      path.data ≠ [] ∧ fs.nodes (resolve path) = some (Node.file data) ∧
      osCreate fs (jsonPath cfg.genDir platform) = Except.ok fs1 ∧
      osWrite fs1 (resolve (jsonPath cfg.genDir platform)) (jsonPath cfg.genDir platform)
        (manifestBytes cfg data) = (manifestWritten cfg fs platform data, none) ∧
      createGzipFile z
          (afterMkdirAll (manifestWritten cfg fs platform data) (versionDir cfg.genDir cfg.version))
          path (gzipPath cfg.genDir cfg.version platform) =
        ((createUpdateBody z cfg fs path platform).1, none) := by
  unfold createUpdateBody at h ⊢
  cases hs : generateSha256 fs path with
  | error e => simp only [hs] at h; cases h
  | ok sum =>
    obtain ⟨data, hp, hdata, rfl⟩ := generateSha256_ok _ _ _ hs
    cases hc : osCreate fs (jsonPath cfg.genDir platform) with
    | error e => simp only [hs, hc] at h; cases h
    | ok fs1 =>
      cases hw : osWrite fs1 (resolve (jsonPath cfg.genDir platform))
          (jsonPath cfg.genDir platform) (manifestBytes cfg data) with
      | mk fs2 err =>
        have hw' := hw
        unfold manifestBytes at hw'
        cases err with
        | some e => simp only [hs, hc, hw'] at h; cases h
        | none =>
          obtain ⟨_, rfl⟩ := manifest_ok cfg fs fs1 fs2 platform data hc hw
          cases hg : createGzipFile z
              (afterMkdirAll (manifestWritten cfg fs platform data)
                (versionDir cfg.genDir cfg.version))
              path (gzipPath cfg.genDir cfg.version platform) with
          | mk fs4 err4 =>
            cases err4 with
            | some e => simp only [hs, hc, hw', hg] at h; cases h
            | none =>
              refine ⟨data, fs1, rfl, hp, hdata, rfl, hw, ?_⟩
              simp only [hw', hg]

/-! ## Digest, hexadecimal and JSON lemmas -/

theorem Sha256.sum_length (data : List UInt8) : (Sha256.sum data).length = 32 := by
  simp [Sha256.sum, Sha256.State.bytes, Sha256.wordBytes]

theorem hexEncode_length (bs : List UInt8) : (hexEncode bs).length = 2 * bs.length := by
  induction bs with
  | nil => rfl
  | cons b bs ih => simp [hexEncode, ih]; omega

theorem digitChar_lower : ∀ n, n < 16 → IsLowerHex (Nat.digitChar n) := by
  intro n hn
  unfold IsLowerHex
  interval_cases n <;> decide

theorem hexEncode_lower (bs : List UInt8) : ∀ c ∈ hexEncode bs, IsLowerHex c := by
  induction bs with
  | nil => simp [hexEncode]
  | cons b bs ih =>
    intro c hc
    simp only [hexEncode, List.mem_cons] at hc
    have hb : b.toNat < 256 := b.val.isLt
    rcases hc with rfl | rfl | h
    · exact digitChar_lower _ (by omega)
    · exact digitChar_lower _ (by omega)
    · exact ih c h

theorem jsonEscape_lower : ∀ c, IsLowerHex c → jsonEscape c = [c] := by
  intro c hc
  simp only [IsLowerHex, List.mem_cons, List.mem_singleton, List.not_mem_nil, or_false] at hc
  rcases hc with h | h | h | h | h | h | h | h | h | h | h | h | h | h | h | h <;> subst h <;> decide

theorem jsonEscapeAll_lower (cs : List Char) (h : ∀ c ∈ cs, IsLowerHex c) :
    jsonEscapeAll cs = cs := by
  induction cs with
  | nil => rfl
  | cons c cs ih =>
    simp only [jsonEscapeAll, jsonEscape_lower c (h c (by simp)), List.singleton_append,
      ih (fun x hx => h x (by simp [hx]))]

theorem jsonString_hex (bs : List UInt8) :
    jsonString (sprintfHex bs) = '"' :: (sprintfHex bs).data ++ ['"'] := by
  simp only [jsonString, sprintfHex, jsonEscapeAll_lower _ (hexEncode_lower bs)]

/-- Writing the archive leaves every other node as it was. -/
theorem gzWritten_nodes_other (z : Gzip) (fs : FS) (t q : Loc) (data : Bytes) (h : q ≠ t) :
    (gzWritten z fs t data).nodes q = fs.nodes q := by
  simp [gzWritten, FS.set, h]

theorem manifestWritten_nodes_json (cfg : Config) (fs : FS) (platform : String) (data : Bytes) :
    (manifestWritten cfg fs platform data).nodes (resolve (jsonPath cfg.genDir platform)) =
      some (Node.file (manifestBytes cfg data)) := by
  simp [manifestWritten, FS.set]

theorem manifestWritten_nodes_other (cfg : Config) (fs : FS) (platform : String) (data : Bytes)
    (q : Loc) (h : q ≠ resolve (jsonPath cfg.genDir platform)) :
    (manifestWritten cfg fs platform data).nodes q = fs.nodes q := by
  simp [manifestWritten, FS.set, h]

theorem createUpdate_events (z : Gzip) (cfg : Config) (fs : FS) (path platform : String)
    (ev : Event) :
    (createUpdate z cfg fs path platform).2 = [ev, Event.wgDone] ↔
      (createUpdateBody z cfg fs path platform).2 = [ev] := by
  simp only [createUpdate]
  constructor
  · intro h
    have : (createUpdateBody z cfg fs path platform).2 ++ [Event.wgDone] = [ev] ++ [Event.wgDone] := h
    exact List.append_cancel_right this
  · intro h
    rw [h]
    rfl

/-- C1: whenever `createUpdate` reports success, the input is a file, the
manifest at `genDir/platform.json` is the encoding of the record whose `sha256`
field is `fmt.Sprintf("%x", ...)` of the SHA-256 digest that `generateSha256`
computed over the bytes of that file, and this field is 64 lowercase
hexadecimal characters, two per digest byte, written without any escape. -/
theorem createUpdate_manifest_sha256 (z : Gzip) (cfg : Config) (fs : FS)
    (path platform : String)
    (h : (createUpdate z cfg fs path platform).2 = [Event.sendUpdate platform, Event.wgDone]) :
    ∃ data, fs.nodes (resolve path) = some (Node.file data) ∧
      generateSha256 fs path = Except.ok (Sha256.sum data) ∧
      (createUpdate z cfg fs path platform).1.nodes (resolve (jsonPath cfg.genDir platform)) =
        some (Node.file (utf8 (encodeCurrent
          { Version := cfg.version, Sha256 := sprintfHex (Sha256.sum data) }).data)) ∧
      (sprintfHex (Sha256.sum data)).data = hexEncode (Sha256.sum data) ∧
      (Sha256.sum data).length = 32 ∧
      (sprintfHex (Sha256.sum data)).length = 64 ∧
      (∀ c ∈ (sprintfHex (Sha256.sum data)).data, IsLowerHex c) ∧
      jsonString (sprintfHex (Sha256.sum data)) =
        '"' :: (sprintfHex (Sha256.sum data)).data ++ ['"'] := by
  rw [createUpdate_events] at h
  obtain ⟨data, fs1, hsum, _, hdata, _, _, hgz⟩ := createUpdateBody_ok z cfg fs path platform h
  obtain ⟨d2, _, _, _, _, _, _, _, hfs⟩ := createGzipFile_ok _ _ _ _ _ hgz
  refine ⟨data, hdata, hsum, ?_, rfl, Sha256.sum_length data, ?_, hexEncode_lower _,
    jsonString_hex _⟩
  · show (createUpdateBody z cfg fs path platform).1.nodes _ = _
    rw [hfs, gzWritten_nodes_other _ _ _ _ _ (jsonPath_ne_gzipPath' _ _ _ _)]
    exact afterMkdirAll_some _ _ _ _ (manifestWritten_nodes_json cfg fs platform data)
  · show (hexEncode (Sha256.sum data)).length = 64
    rw [hexEncode_length, Sha256.sum_length]

set_option maxRecDepth 100000 in
theorem createUpdate_manifest_sha256_witness :
    (createUpdate frameGzip cfg0 fs0 "bin/linux-amd64" "linux-amd64").2 =
        [Event.sendUpdate "linux-amd64", Event.wgDone] ∧
    ∃ data, fs0.nodes (resolve "bin/linux-amd64") = some (Node.file data) ∧
      generateSha256 fs0 "bin/linux-amd64" = Except.ok (Sha256.sum data) ∧
      (createUpdate frameGzip cfg0 fs0 "bin/linux-amd64" "linux-amd64").1.nodes
          (resolve (jsonPath cfg0.genDir "linux-amd64")) =
        some (Node.file (utf8 (encodeCurrent
          { Version := cfg0.version, Sha256 := sprintfHex (Sha256.sum data) }).data)) ∧
      (sprintfHex (Sha256.sum data)).data = hexEncode (Sha256.sum data) ∧
      (Sha256.sum data).length = 32 ∧
      (sprintfHex (Sha256.sum data)).length = 64 ∧
      (∀ c ∈ (sprintfHex (Sha256.sum data)).data, IsLowerHex c) ∧
      jsonString (sprintfHex (Sha256.sum data)) =
        '"' :: (sprintfHex (Sha256.sum data)).data ++ ['"'] :=
  ⟨by decide, createUpdate_manifest_sha256 frameGzip cfg0 fs0 "bin/linux-amd64" "linux-amd64"
    (by decide)⟩

theorem createUpdateBody_sends_once (z : Gzip) (cfg : Config) (fs : FS) (path platform : String) :
    (createUpdateBody z cfg fs path platform).2 = [Event.sendUpdate platform] ∨
    ∃ err, (createUpdateBody z cfg fs path platform).2 = [Event.sendError err] := by
  unfold createUpdateBody
  split
  · exact Or.inr ⟨_, rfl⟩
  · split
    · exact Or.inr ⟨_, rfl⟩
    · dsimp only
      split
      · exact Or.inr ⟨_, rfl⟩
      · split
        · exact Or.inr ⟨_, rfl⟩
        · exact Or.inl rfl

/-- C6: every run of `createUpdate` performs exactly one channel send, either
the platform on `updates` or an error on `errors`, never both and never none,
followed by exactly one `wg.Done`; the platform is sent only when every step
succeeded. -/
theorem createUpdate_sends_exactly_once (z : Gzip) (cfg : Config) (fs : FS)
    (path platform : String) :
    ((createUpdate z cfg fs path platform).2 = [Event.sendUpdate platform, Event.wgDone] ∨
      ∃ err, (createUpdate z cfg fs path platform).2 = [Event.sendError err, Event.wgDone]) ∧
    ((createUpdate z cfg fs path platform).2 = [Event.sendUpdate platform, Event.wgDone] →
      ∃ data fs1, generateSha256 fs path = Except.ok (Sha256.sum data) ∧
        osCreate fs (jsonPath cfg.genDir platform) = Except.ok fs1 ∧
        osWrite fs1 (resolve (jsonPath cfg.genDir platform)) (jsonPath cfg.genDir platform)
          (manifestBytes cfg data) = (manifestWritten cfg fs platform data, none) ∧
        createGzipFile z
            (afterMkdirAll (manifestWritten cfg fs platform data)
              (versionDir cfg.genDir cfg.version))
            path (gzipPath cfg.genDir cfg.version platform) =
          ((createUpdate z cfg fs path platform).1, none)) := by
  constructor
  · rcases createUpdateBody_sends_once z cfg fs path platform with h | ⟨err, h⟩
    · exact Or.inl ((createUpdate_events _ _ _ _ _ _).2 h)
    · exact Or.inr ⟨err, (createUpdate_events _ _ _ _ _ _).2 h⟩
  · intro h
    rw [createUpdate_events] at h
    obtain ⟨data, fs1, h1, _, _, h2, h3, h4⟩ := createUpdateBody_ok z cfg fs path platform h
    exact ⟨data, fs1, h1, h2, h3, h4⟩

/-- What a failed `createGzipFile` on a source that is a file did: nothing
(the target could not be created), or it filled the volume with a part of the
stream that is shorter than what the writer emits before `Close`. -/
theorem createGzipFile_err (z : Gzip) (fs fs1 : FS) (path t : String) (err : PathError)
    (d : Bytes) (hd : fs.nodes (resolve path) = some (Node.file d))
    (h : createGzipFile z fs path t = (fs1, some err)) :
    fs1 = fs ∨ ∃ data, fs.free + fs.size (resolve t) < z.eager data ∧
      fs1.nodes = (fs.set (resolve t)
        (Node.file ((z.compress data).take (fs.free + fs.size (resolve t))))).nodes := by
  unfold createGzipFile at h
  cases ho : osOpen fs path with
  | error e =>
    simp only [ho] at h
    exact Or.inl (congrArg Prod.fst h).symm
  | ok f =>
    obtain ⟨rfl, hsome, hp⟩ := osOpen_ok _ _ _ ho
    cases hc : osCreate fs t with
    | error e =>
      simp only [ho, hc] at h
      exact Or.inl (congrArg Prod.fst h).symm
    | ok fsc =>
      obtain ⟨ht, hpar, hnd, hnodes, hfree⟩ := osCreate_ok _ _ _ hc
      have hfile : ∃ data, fsc.nodes (resolve path) = some (Node.file data) := by
        rw [hnodes]
        by_cases e : resolve path = resolve t
        · exact ⟨[], by simp [FS.set, e]⟩
        · exact ⟨d, by simp [FS.set, e, hd]⟩
      obtain ⟨data, hdata⟩ := hfile
      have hr := osReadAll_of_file fsc (resolve path) path data hdata
      simp only [ho, hc, hr] at h
      have htfile : fsc.nodes (resolve t) = some (Node.file []) := by
        rw [hnodes]; exact FS.set_nodes_same _ _ _
      obtain ⟨hw1, _, hw3⟩ := osWrite_file fsc (resolve t) t []
        ((z.compress data).take (z.eager data)) htfile
      have hlen : ((z.compress data).take (z.eager data)).length = z.eager data := by
        rw [List.length_take]
        exact Nat.min_eq_left (Nat.le_of_lt (z.eager_lt data))
      generalize osWrite fsc (resolve t) t ((z.compress data).take (z.eager data)) = r
        at h hw1 hw3
      obtain ⟨fs2, err2⟩ := r
      cases err2 with
      | none => simp only at h; cases h
      | some e2 =>
        simp only at h hw1 hw3
        have hlt : fsc.free < z.eager data := by
          by_contra hcon
          have := hw3.2 (by rw [hlen]; omega)
          cases this
        right
        refine ⟨data, by rw [← hfree]; exact hlt, ?_⟩
        have h1 := congrArg Prod.fst h
        simp only at h1
        rw [← h1, hw1, List.nil_append, List.take_take, ← hfree,
          Nat.min_eq_left (Nat.le_of_lt hlt),
          FS.set_nodes_congr fsc (fs.set (resolve t) _) _ _ hnodes, FS.set_set]

theorem manifest_of (cfg : Config) (fs : FS) (platform : String) (data : Bytes)
    (hroom : (manifestBytes cfg data).length ≤
      fs.free + fs.size (resolve (jsonPath cfg.genDir platform))) :
    osWrite { nodes := (fs.set (resolve (jsonPath cfg.genDir platform)) (Node.file [])).nodes,
              free := fs.free + fs.size (resolve (jsonPath cfg.genDir platform)) }
        (resolve (jsonPath cfg.genDir platform)) (jsonPath cfg.genDir platform)
        (manifestBytes cfg data) = (manifestWritten cfg fs platform data, none) := by
  unfold osWrite
  simp only [FS.set, if_true, hroom, List.nil_append, manifestWritten]
  congr 2
  funext q
  by_cases h : q = resolve (jsonPath cfg.genDir platform) <;> simp [h]

/-- When `createUpdate` succeeds. -/
theorem createUpdateBody_of (z : Gzip) (cfg : Config) (fs fs4 : FS) (path platform : String)
    (data : Bytes) (hp : path.data ≠ []) (hdata : fs.nodes (resolve path) = some (Node.file data))
    (hpar : fs.nodes (resolve (jsonPath cfg.genDir platform)).parent = some Node.dir)
    (hnd : fs.nodes (resolve (jsonPath cfg.genDir platform)) ≠ some Node.dir)
    (hroom : (manifestBytes cfg data).length ≤
      fs.free + fs.size (resolve (jsonPath cfg.genDir platform)))
    (hgz : createGzipFile z
        (afterMkdirAll (manifestWritten cfg fs platform data) (versionDir cfg.genDir cfg.version))
        path (gzipPath cfg.genDir cfg.version platform) = (fs4, none)) :
    createUpdateBody z cfg fs path platform = (fs4, [Event.sendUpdate platform]) := by
  have hw := manifest_of cfg fs platform data hroom
  unfold manifestBytes at hw
  unfold createUpdateBody
  simp only [generateSha256_of fs path data hp hdata,
    osCreate_of fs _ (jsonPath_ne_empty _ _) hpar hnd, hw, hgz]

theorem FS.size_congr (a b : FS) (l : Loc) (h : a.nodes l = b.nodes l) : a.size l = b.size l := by
  simp [FS.size, h]

theorem afterMkdirAll_size (fs : FS) (path : String) (l : Loc) :
    (afterMkdirAll fs path).size l = fs.size l := by
  rcases (afterMkdirAll_spec fs path).2 l with e | ⟨e1, e2⟩
  · exact FS.size_congr _ _ _ e
  · simp [FS.size, e1, e2]

theorem gzWritten_nodes_same (z : Gzip) (fs : FS) (t : Loc) (data : Bytes) :
    (gzWritten z fs t data).nodes t =
      some (Node.file ((z.compress data).take (fs.free + fs.size t))) := by
  simp [gzWritten, FS.set]

/-- C2, as stated, fails: when the input is the archive path itself (the tool
run on the directory `public/1.2.0` that holds its earlier output),
`createGzipFile` truncates its own input before reading it, reports success,
and the archive decompresses to no bytes instead of the original `A`; the same
through `createUpdate`. -/
theorem createGzipFile_alias_loses_input :
    fsAlias.nodes (resolve "public/1.2.0/linux-amd64.gz") = some (Node.file [65]) ∧
    (createGzipFile frameGzip fsAlias "public/1.2.0/linux-amd64.gz"
      "public/1.2.0/linux-amd64.gz").2 = none ∧
    (createGzipFile frameGzip fsAlias "public/1.2.0/linux-amd64.gz"
      "public/1.2.0/linux-amd64.gz").1.nodes (resolve "public/1.2.0/linux-amd64.gz") =
        some (Node.file [31, 139, 0]) ∧
    frameGzip.decompress [31, 139, 0] = some [] ∧
    frameGzip.decompress [31, 139, 0] ≠ some [65] ∧
    launch "public/1.2.0" "linux-amd64" ["linux-amd64.gz"] =
      [{ path := "public/1.2.0/linux-amd64.gz", platform := "linux-amd64" }] ∧
    gzipPath cfg0.genDir cfg0.version "linux-amd64" = "public/1.2.0/linux-amd64.gz" ∧
    (createUpdate frameGzip cfg0 fsAlias "public/1.2.0/linux-amd64.gz" "linux-amd64").2 =
      [Event.sendUpdate "linux-amd64", Event.wgDone] ∧
    (createUpdate frameGzip cfg0 fsAlias "public/1.2.0/linux-amd64.gz" "linux-amd64").1.nodes
      (resolve (gzipPath cfg0.genDir cfg0.version "linux-amd64")) =
        some (Node.file [31, 139, 0]) := by
  set_option maxRecDepth 100000 in decide

/-- C2 (amended): when `createGzipFile` reports success, the source and the
target are different files and the volume has room for the whole stream, the
target holds a stream that decompresses to the bytes of the source; and so for
`createUpdate` when the input is neither its manifest nor its archive and the
volume has room for manifest and stream. -/
theorem createGzipFile_roundtrip (z : Gzip) (fs fs1 : FS) (path t : String) (data : Bytes)
    (h : createGzipFile z fs path t = (fs1, none))
    (hdata : fs.nodes (resolve path) = some (Node.file data))
    (hne : resolve path ≠ resolve t)
    (hroom : (z.compress data).length ≤ fs.free + fs.size (resolve t)) :
    (∃ archive, fs1.nodes (resolve t) = some (Node.file archive) ∧
      z.decompress archive = some data) ∧
    ∀ (cfg : Config) (platform : String),
      (createUpdate z cfg fs path platform).2 = [Event.sendUpdate platform, Event.wgDone] →
      resolve path ≠ resolve (jsonPath cfg.genDir platform) →
      resolve path ≠ resolve (gzipPath cfg.genDir cfg.version platform) →
      (manifestBytes cfg data).length + (z.compress data).length ≤
        fs.free + fs.size (resolve (jsonPath cfg.genDir platform)) +
          fs.size (resolve (gzipPath cfg.genDir cfg.version platform)) →
      ∃ archive,
        (createUpdate z cfg fs path platform).1.nodes
          (resolve (gzipPath cfg.genDir cfg.version platform)) = some (Node.file archive) ∧
        z.decompress archive = some data := by
  have key : ∀ (fs fs1 : FS) (t : String), createGzipFile z fs path t = (fs1, none) →
      fs.nodes (resolve path) = some (Node.file data) → resolve path ≠ resolve t →
      (z.compress data).length ≤ fs.free + fs.size (resolve t) →
      fs1.nodes (resolve t) = some (Node.file (z.compress data)) := by
    intro fs fs1 t h hdata hne hroom
    obtain ⟨d2, _, _, _, _, _, hd2, _, rfl⟩ := createGzipFile_ok z fs fs1 path t h
    rw [FS.set_nodes_other _ _ _ _ hne, hdata] at hd2
    cases hd2
    rw [gzWritten_nodes_same, List.take_of_length_le hroom]
  refine ⟨⟨_, key fs fs1 t h hdata hne hroom, z.roundtrip data⟩, ?_⟩
  intro cfg platform hs hj hg hroom2
  rw [createUpdate_events] at hs
  obtain ⟨d, fsc, _, _, hd, hc, hw, hgz⟩ := createUpdateBody_ok z cfg fs path platform hs
  rw [hdata] at hd
  cases hd
  obtain ⟨hM, _⟩ := manifest_ok cfg fs fsc _ platform data hc hw
  refine ⟨_, key _ _ _ hgz ?_ hg ?_, z.roundtrip data⟩
  · apply afterMkdirAll_some
    rw [manifestWritten_nodes_other _ _ _ _ _ hj, hdata]
  · have h1 := (afterMkdirAll_spec (manifestWritten cfg fs platform data)
      (versionDir cfg.genDir cfg.version)).1
    have h2 := afterMkdirAll_size (manifestWritten cfg fs platform data)
      (versionDir cfg.genDir cfg.version) (resolve (gzipPath cfg.genDir cfg.version platform))
    have h3 : (manifestWritten cfg fs platform data).size
        (resolve (gzipPath cfg.genDir cfg.version platform)) =
        fs.size (resolve (gzipPath cfg.genDir cfg.version platform)) :=
      FS.size_congr _ _ _ (manifestWritten_nodes_other _ _ _ _ _
        (fun e => jsonPath_ne_gzipPath' _ _ _ _ e.symm))
    rw [h1, h2, h3]
    simp only [manifestWritten]
    omega

theorem createGzipFile_roundtrip_witness :
    (createGzipFile frameGzip fs0 "bin/linux-amd64" "public/linux-amd64.gz" =
        (gzWritten frameGzip fs0 (resolve "public/linux-amd64.gz") [65], none) ∧
      fs0.nodes (resolve "bin/linux-amd64") = some (Node.file [65]) ∧
      resolve "bin/linux-amd64" ≠ resolve "public/linux-amd64.gz" ∧
      (frameGzip.compress [65]).length ≤ fs0.free + fs0.size (resolve "public/linux-amd64.gz")) ∧
    ((∃ archive, (gzWritten frameGzip fs0 (resolve "public/linux-amd64.gz") [65]).nodes
          (resolve "public/linux-amd64.gz") = some (Node.file archive) ∧
        frameGzip.decompress archive = some [65]) ∧
      ∀ (cfg : Config) (platform : String),
        (createUpdate frameGzip cfg fs0 "bin/linux-amd64" platform).2 =
          [Event.sendUpdate platform, Event.wgDone] →
        resolve "bin/linux-amd64" ≠ resolve (jsonPath cfg.genDir platform) →
        resolve "bin/linux-amd64" ≠ resolve (gzipPath cfg.genDir cfg.version platform) →
        (manifestBytes cfg [65]).length + (frameGzip.compress [65]).length ≤
          fs0.free + fs0.size (resolve (jsonPath cfg.genDir platform)) +
            fs0.size (resolve (gzipPath cfg.genDir cfg.version platform)) →
        ∃ archive,
          (createUpdate frameGzip cfg fs0 "bin/linux-amd64" platform).1.nodes
            (resolve (gzipPath cfg.genDir cfg.version platform)) = some (Node.file archive) ∧
          frameGzip.decompress archive = some [65]) :=
  ⟨⟨createGzipFile_of frameGzip fs0 "bin/linux-amd64" "public/linux-amd64.gz" [65]
      (by decide) (by decide) (by decide) (by decide) (by decide) (by decide) (by decide),
    by decide, by decide, by decide⟩,
   createGzipFile_roundtrip frameGzip fs0 _ "bin/linux-amd64" "public/linux-amd64.gz" [65]
    (createGzipFile_of frameGzip fs0 "bin/linux-amd64" "public/linux-amd64.gz" [65]
      (by decide) (by decide) (by decide) (by decide) (by decide) (by decide) (by decide))
    (by decide) (by decide) (by decide)⟩

/-- C5: the code at the failing input. With room for two bytes, `io.Copy`
succeeds after the writer has handed over its two header bytes, the deferred
`gz.Close()` cannot write the rest of the stream, its error is dropped, and
`createGzipFile` returns nil although the target holds only the header. -/
theorem createGzipFile_drops_close_error :
    (createGzipFile frameGzip fsTight "bin/linux-amd64" "public/linux-amd64.gz").2 = none ∧
    (createGzipFile frameGzip fsTight "bin/linux-amd64" "public/linux-amd64.gz").1.nodes
      (resolve "public/linux-amd64.gz") = some (Node.file [31, 139]) ∧
    frameGzip.compress [65] = [31, 139, 65, 0] ∧
    frameGzip.decompress [31, 139] = none ∧
    (osWrite { nodes := (fsTight.set (resolve "public/linux-amd64.gz")
          (Node.file [31, 139])).nodes, free := 0 }
        (resolve "public/linux-amd64.gz") "public/linux-amd64.gz" [65, 0]).2 =
      some { op := "write", path := "public/linux-amd64.gz", err := Errno.ENOSPC } := by
  decide

/-- C4: the code at the failing input. With a regular file at `public/1.2.0`,
`os.MkdirAll` fails, `createUpdate` does not look at its result and goes on to
`createGzipFile`; the error it sends is the one of the `os.Create` in
`createGzipFile`. -/
theorem createUpdate_ignores_mkdirAll_error :
    (match osMkdirAll (manifestWritten cfg0 fsBlocked "linux-amd64" [65])
        (versionDir cfg0.genDir cfg0.version) with
      | Except.error e => some e
      | Except.ok _ => none) =
      some { op := "mkdir", path := "public/1.2.0", err := Errno.ENOTDIR } ∧
    (createGzipFile frameGzip
        (afterMkdirAll (manifestWritten cfg0 fsBlocked "linux-amd64" [65])
          (versionDir cfg0.genDir cfg0.version))
        "bin/linux-amd64" (gzipPath cfg0.genDir cfg0.version "linux-amd64")).2 =
      some { op := "open", path := "public/1.2.0/linux-amd64.gz", err := Errno.ENOTDIR } ∧
    (createUpdate frameGzip cfg0 fsBlocked "bin/linux-amd64" "linux-amd64").2 =
      [Event.sendError
        { op := "open", path := "public/1.2.0/linux-amd64.gz", err := Errno.ENOTDIR },
       Event.wgDone] := by
  set_option maxRecDepth 100000 in decide

theorem Loc.parent_ne (l : Loc) (h : l.comps ≠ []) : l.parent ≠ l := by
  intro e
  have := congrArg (fun x => x.comps.length) e
  simp only [Loc.parent, List.length_dropLast] at this
  have hl : 0 < l.comps.length := List.length_pos.2 h
  omega

theorem jsonPath_comps_ne_nil (g p : String) : (resolve (jsonPath g p)).comps ≠ [] := by
  obtain ⟨_, _, _, _, e⟩ := jsonPath_last g p
  rw [e]
  simp

theorem gzipPath_comps_ne_nil (g v p : String) : (resolve (gzipPath g v p)).comps ≠ [] := by
  obtain ⟨_, _, _, _, e⟩ := gzipPath_last g v p
  rw [e]
  simp

/-- C10: when the checksum and the manifest steps succeed and `createGzipFile`
fails, `createUpdate` sends that error, the manifest with the new version and
checksum stays in place, and the archive path holds no complete stream from
this run: it is as it was before the run, or a directory, or it holds a proper
prefix of a stream. -/
theorem createUpdate_manifest_not_rolled_back (z : Gzip) (cfg : Config) (fs fs1 : FS)
    (path platform : String) (checksum : Bytes) (err : PathError)
    (hsum : generateSha256 fs path = Except.ok checksum)
    (hc : osCreate fs (jsonPath cfg.genDir platform) = Except.ok fs1)
    (hw : (osWrite fs1 (resolve (jsonPath cfg.genDir platform)) (jsonPath cfg.genDir platform)
      (utf8 (encodeCurrent { Version := cfg.version, Sha256 := sprintfHex checksum }).data)).2 =
        none)
    (hgz : (createGzipFile z
      (afterMkdirAll
        (osWrite fs1 (resolve (jsonPath cfg.genDir platform)) (jsonPath cfg.genDir platform)
          (utf8 (encodeCurrent
            { Version := cfg.version, Sha256 := sprintfHex checksum }).data)).1
        (versionDir cfg.genDir cfg.version))
      path (gzipPath cfg.genDir cfg.version platform)).2 = some err) :
    (createUpdate z cfg fs path platform).2 = [Event.sendError err, Event.wgDone] ∧
    (createUpdate z cfg fs path platform).1.nodes (resolve (jsonPath cfg.genDir platform)) =
      some (Node.file (utf8 (encodeCurrent
        { Version := cfg.version, Sha256 := sprintfHex checksum }).data)) ∧
    ((createUpdate z cfg fs path platform).1.nodes
        (resolve (gzipPath cfg.genDir cfg.version platform)) =
        fs.nodes (resolve (gzipPath cfg.genDir cfg.version platform)) ∨
      (createUpdate z cfg fs path platform).1.nodes
        (resolve (gzipPath cfg.genDir cfg.version platform)) = some Node.dir ∨
      ∃ d n, n < (z.compress d).length ∧
        (createUpdate z cfg fs path platform).1.nodes
          (resolve (gzipPath cfg.genDir cfg.version platform)) =
          some (Node.file ((z.compress d).take n))) := by
  obtain ⟨data, hp, hdata, rfl⟩ := generateSha256_ok _ _ _ hsum
  change (osWrite fs1 _ _ (manifestBytes cfg data)).2 = none at hw
  change (createGzipFile z (afterMkdirAll (osWrite fs1 _ _ (manifestBytes cfg data)).1 _) _ _).2
    = some err at hgz
  change _ ∧ _ = some (Node.file (manifestBytes cfg data)) ∧ _
  cases hwe : osWrite fs1 (resolve (jsonPath cfg.genDir platform)) (jsonPath cfg.genDir platform)
      (manifestBytes cfg data) with
  | mk fs2 e2 =>
    rw [hwe] at hw hgz
    simp only at hw hgz
    subst hw
    obtain ⟨_, rfl⟩ := manifest_ok cfg fs fs1 fs2 platform data hc hwe
    cases hge : createGzipFile z
        (afterMkdirAll (manifestWritten cfg fs platform data) (versionDir cfg.genDir cfg.version))
        path (gzipPath cfg.genDir cfg.version platform) with
    | mk fs4 e4 =>
      rw [hge] at hgz
      simp only at hgz
      subst hgz
      have hwe' := hwe
      unfold manifestBytes at hwe'
      have hbody : createUpdateBody z cfg fs path platform = (fs4, [Event.sendError err]) := by
        unfold createUpdateBody
        simp only [hsum, hc, hwe', hge]
      have hfile : ∃ d, (afterMkdirAll (manifestWritten cfg fs platform data)
          (versionDir cfg.genDir cfg.version)).nodes (resolve path) = some (Node.file d) := by
        by_cases e : resolve path = resolve (jsonPath cfg.genDir platform)
        · exact ⟨_, afterMkdirAll_some _ _ _ _ (by rw [e]; exact manifestWritten_nodes_json _ _ _ _)⟩
        · exact ⟨_, afterMkdirAll_some _ _ _ _
            (by rw [manifestWritten_nodes_other _ _ _ _ _ e]; exact hdata)⟩
      obtain ⟨d, hd⟩ := hfile
      have hjson := afterMkdirAll_some (manifestWritten cfg fs platform data)
        (versionDir cfg.genDir cfg.version) _ _ (manifestWritten_nodes_json cfg fs platform data)
      have hjg := jsonPath_ne_gzipPath' cfg.genDir cfg.version platform platform
      simp only [createUpdate, hbody]
      refine ⟨rfl, ?_, ?_⟩
      · rcases createGzipFile_err z _ fs4 path _ err d hd hge with rfl | ⟨d2, _, hn⟩
        · exact hjson
        · rw [hn, FS.set_nodes_other _ _ _ _ hjg]
          exact hjson
      · rcases createGzipFile_err z _ fs4 path _ err d hd hge with rfl | ⟨d2, hlt, hn⟩
        · rcases (afterMkdirAll_spec (manifestWritten cfg fs platform data)
            (versionDir cfg.genDir cfg.version)).2
            (resolve (gzipPath cfg.genDir cfg.version platform)) with e | ⟨_, e⟩
          · left
            rw [e]
            exact manifestWritten_nodes_other _ _ _ _ _ (fun e => hjg e.symm)
          · right; left
            exact e
        · right; right
          refine ⟨d2, _, ?_, by rw [hn]; exact FS.set_nodes_same _ _ _⟩
          have := z.eager_lt d2
          omega

set_option maxRecDepth 100000 in
theorem createUpdate_manifest_not_rolled_back_witness :
    (createUpdate frameGzip cfg0 fsNoRoom "bin/linux-amd64" "linux-amd64").2 =
      [Event.sendError
        { op := "write", path := "public/1.2.0/linux-amd64.gz", err := Errno.ENOSPC },
       Event.wgDone] ∧
    (createUpdate frameGzip cfg0 fsNoRoom "bin/linux-amd64" "linux-amd64").1.nodes
        (resolve (jsonPath cfg0.genDir "linux-amd64")) =
      some (Node.file (utf8 (encodeCurrent
        { Version := cfg0.version, Sha256 := sprintfHex (Sha256.sum [65]) }).data)) ∧
    ((createUpdate frameGzip cfg0 fsNoRoom "bin/linux-amd64" "linux-amd64").1.nodes
        (resolve (gzipPath cfg0.genDir cfg0.version "linux-amd64")) =
        fsNoRoom.nodes (resolve (gzipPath cfg0.genDir cfg0.version "linux-amd64")) ∨
      (createUpdate frameGzip cfg0 fsNoRoom "bin/linux-amd64" "linux-amd64").1.nodes
        (resolve (gzipPath cfg0.genDir cfg0.version "linux-amd64")) = some Node.dir ∨
      ∃ d n, n < (frameGzip.compress d).length ∧
        (createUpdate frameGzip cfg0 fsNoRoom "bin/linux-amd64" "linux-amd64").1.nodes
          (resolve (gzipPath cfg0.genDir cfg0.version "linux-amd64")) =
          some (Node.file ((frameGzip.compress d).take n))) :=
  createUpdate_manifest_not_rolled_back frameGzip cfg0 fsNoRoom
    { nodes := (fsNoRoom.set (resolve (jsonPath cfg0.genDir "linux-amd64")) (Node.file [])).nodes,
      free := fsNoRoom.free + fsNoRoom.size (resolve (jsonPath cfg0.genDir "linux-amd64")) }
    "bin/linux-amd64" "linux-amd64" (Sha256.sum [65])
    { op := "write", path := "public/1.2.0/linux-amd64.gz", err := Errno.ENOSPC }
    (generateSha256_of fsNoRoom "bin/linux-amd64" [65] (by decide) (by decide))
    (osCreate_of fsNoRoom (jsonPath cfg0.genDir "linux-amd64") (by decide) (by decide) (by decide))
    (by decide) (by decide)

theorem manifestWritten_fixed (cfg : Config) (fs : FS) (platform : String) (data : Bytes)
    (h : fs.nodes (resolve (jsonPath cfg.genDir platform)) =
      some (Node.file (manifestBytes cfg data))) :
    manifestWritten cfg fs platform data = fs := by
  rw [FS.ext_iff']
  constructor
  · funext q
    by_cases e : q = resolve (jsonPath cfg.genDir platform)
    · subst e; simp [manifestWritten, FS.set, h]
    · simp [manifestWritten, FS.set, e]
  · simp [manifestWritten, FS.size, h]

/-- The second run of a successful `createUpdate` on an unchanged input. -/
theorem createUpdateBody_idempotent (z : Gzip) (cfg : Config) (fs : FS) (path platform : String)
    (h1 : (createUpdateBody z cfg fs path platform).2 = [Event.sendUpdate platform])
    (hsame : (createUpdateBody z cfg fs path platform).1.nodes (resolve path) =
      fs.nodes (resolve path)) :
    ∃ data fs4,
      createUpdateBody z cfg (createUpdateBody z cfg fs path platform).1 path platform =
        (fs4, [Event.sendUpdate platform]) ∧
      (createUpdateBody z cfg fs path platform).1.nodes (resolve (jsonPath cfg.genDir platform)) =
        some (Node.file (manifestBytes cfg data)) ∧
      fs.nodes (resolve path) = some (Node.file data) ∧
      fs4.nodes (resolve (jsonPath cfg.genDir platform)) =
        (createUpdateBody z cfg fs path platform).1.nodes
          (resolve (jsonPath cfg.genDir platform)) ∧
      fs4.nodes (resolve (gzipPath cfg.genDir cfg.version platform)) =
        (createUpdateBody z cfg fs path platform).1.nodes
          (resolve (gzipPath cfg.genDir cfg.version platform)) ∧
      fs4.free = (createUpdateBody z cfg fs path platform).1.free := by
  obtain ⟨data, fsc, _, hp, hdata, hc, hw, hgz⟩ := createUpdateBody_ok z cfg fs path platform h1
  obtain ⟨_, hparj, _, _, _⟩ := osCreate_ok _ _ _ hc
  generalize hfin : (createUpdateBody z cfg fs path platform).1 = final1 at hgz hsame ⊢
  obtain ⟨d2, _, _, hgne, hparB, hndB, hd2, heager, hfinal⟩ := createGzipFile_ok _ _ _ _ _ hgz
  have hjg := jsonPath_ne_gzipPath' cfg.genDir cfg.version platform platform
  -- the state before the archive step of the first run
  generalize hB : afterMkdirAll (manifestWritten cfg fs platform data)
    (versionDir cfg.genDir cfg.version) = fsB at hgz hparB hndB hd2 heager hfinal
  have hBjson : fsB.nodes (resolve (jsonPath cfg.genDir platform)) =
      some (Node.file (manifestBytes cfg data)) := by
    rw [← hB]
    exact afterMkdirAll_some _ _ _ _ (manifestWritten_nodes_json cfg fs platform data)
  have hBpj : fsB.nodes (resolve (jsonPath cfg.genDir platform)).parent = some Node.dir := by
    rw [← hB]
    apply afterMkdirAll_some
    rw [manifestWritten_nodes_other _ _ _ _ _
      (Loc.parent_ne _ (jsonPath_comps_ne_nil _ _)), hparj]
  -- facts about the state the first run leaves
  have ha : final1.nodes (resolve (jsonPath cfg.genDir platform)) =
      some (Node.file (manifestBytes cfg data)) := by
    rw [hfinal, gzWritten_nodes_other _ _ _ _ _ hjg, hBjson]
  have hb : final1.nodes (resolve (gzipPath cfg.genDir cfg.version platform)) =
      some (Node.file ((z.compress d2).take
        (fsB.free + fsB.size (resolve (gzipPath cfg.genDir cfg.version platform))))) := by
    rw [hfinal, gzWritten_nodes_same]
  have hc1 : final1.free =
      fsB.free + fsB.size (resolve (gzipPath cfg.genDir cfg.version platform)) -
        (z.compress d2).length := by
    rw [hfinal]; rfl
  have hd1 : final1.nodes (resolve (jsonPath cfg.genDir platform)).parent = some Node.dir := by
    have hne : (resolve (jsonPath cfg.genDir platform)).parent ≠
        resolve (gzipPath cfg.genDir cfg.version platform) := by
      intro e
      rw [e] at hBpj
      exact hndB hBpj
    rw [hfinal, gzWritten_nodes_other _ _ _ _ _ hne, hBpj]
  have he1 : final1.nodes (resolve (gzipPath cfg.genDir cfg.version platform)).parent =
      some Node.dir := by
    rw [hfinal, gzWritten_nodes_other _ _ _ _ _
      (Loc.parent_ne _ (gzipPath_comps_ne_nil _ _ _)), hparB]
  have hf1 : final1.nodes (resolve path) = some (Node.file data) := by rw [hsame, hdata]
  -- the second run
  have hA2 := manifestWritten_fixed cfg final1 platform data ha
  have hroomM : (manifestBytes cfg data).length ≤
      final1.free + final1.size (resolve (jsonPath cfg.genDir platform)) := by
    simp [FS.size, ha]
  have hsize : (afterMkdirAll final1 (versionDir cfg.genDir cfg.version)).free +
      (afterMkdirAll final1 (versionDir cfg.genDir cfg.version)).size
        (resolve (gzipPath cfg.genDir cfg.version platform)) =
      fsB.free + fsB.size (resolve (gzipPath cfg.genDir cfg.version platform)) := by
    rw [(afterMkdirAll_spec _ _).1, afterMkdirAll_size, hc1]
    simp only [FS.size, hb, List.length_take]
    omega
  have hdata2 : ((afterMkdirAll final1 (versionDir cfg.genDir cfg.version)).set
      (resolve (gzipPath cfg.genDir cfg.version platform)) (Node.file [])).nodes (resolve path) =
      some (Node.file d2) := by
    by_cases e : resolve path = resolve (gzipPath cfg.genDir cfg.version platform)
    · rw [e] at hd2 ⊢
      rw [FS.set_nodes_same] at hd2 ⊢
      exact hd2
    · rw [FS.set_nodes_other _ _ _ _ e] at hd2 ⊢
      rw [afterMkdirAll_some _ _ _ _ hf1]
      have : final1.nodes (resolve path) = fsB.nodes (resolve path) := by
        rw [hfinal, gzWritten_nodes_other _ _ _ _ _ e]
      rw [← hf1, this, hd2]
  have hgz2 := createGzipFile_of z (afterMkdirAll final1 (versionDir cfg.genDir cfg.version))
    path (gzipPath cfg.genDir cfg.version platform) d2 hp
    (by rw [afterMkdirAll_some _ _ _ _ hf1]; simp) hgne
    (afterMkdirAll_some _ _ _ _ he1)
    (by rw [afterMkdirAll_some _ _ _ _ hb]; simp) hdata2 (by rw [hsize]; exact heager)
  have hbody2 := createUpdateBody_of z cfg final1 _ path platform data hp hf1 hd1
    (by rw [ha]; simp) hroomM (by rw [hA2]; exact hgz2)
  refine ⟨data, _, hbody2, ha, hdata, ?_, ?_, ?_⟩
  · rw [gzWritten_nodes_other _ _ _ _ _ hjg, afterMkdirAll_some _ _ _ _ ha, ha]
  · rw [gzWritten_nodes_same, hsize, hb]
  · simp only [gzWritten]
    rw [hsize, hc1]

/-- C9: a second run of `createUpdate` on the state a successful first run
left, with the same version and platform and the input file still holding the
same bytes, succeeds again; the manifest is again exactly the record of the
same version and checksum, the archive holds the same bytes (so it
decompresses to the same bytes), and the volume has the same free space:
the files are overwritten, not appended to. -/
theorem createUpdate_idempotent (z : Gzip) (cfg : Config) (fs : FS) (path platform : String)
    (h1 : (createUpdate z cfg fs path platform).2 = [Event.sendUpdate platform, Event.wgDone])
    (hsame : (createUpdate z cfg fs path platform).1.nodes (resolve path) =
      fs.nodes (resolve path)) :
    (createUpdate z cfg (createUpdate z cfg fs path platform).1 path platform).2 =
      [Event.sendUpdate platform, Event.wgDone] ∧
    (∃ data, fs.nodes (resolve path) = some (Node.file data) ∧
      (createUpdate z cfg fs path platform).1.nodes (resolve (jsonPath cfg.genDir platform)) =
        some (Node.file (manifestBytes cfg data)) ∧
      (createUpdate z cfg (createUpdate z cfg fs path platform).1 path platform).1.nodes
          (resolve (jsonPath cfg.genDir platform)) =
        some (Node.file (manifestBytes cfg data))) ∧
    (createUpdate z cfg (createUpdate z cfg fs path platform).1 path platform).1.nodes
        (resolve (gzipPath cfg.genDir cfg.version platform)) =
      (createUpdate z cfg fs path platform).1.nodes
        (resolve (gzipPath cfg.genDir cfg.version platform)) ∧
    (∀ a b,
      (createUpdate z cfg fs path platform).1.nodes
        (resolve (gzipPath cfg.genDir cfg.version platform)) = some (Node.file a) →
      (createUpdate z cfg (createUpdate z cfg fs path platform).1 path platform).1.nodes
        (resolve (gzipPath cfg.genDir cfg.version platform)) = some (Node.file b) →
      z.decompress b = z.decompress a) ∧
    (createUpdate z cfg (createUpdate z cfg fs path platform).1 path platform).1.free =
      (createUpdate z cfg fs path platform).1.free := by
  rw [createUpdate_events] at h1
  obtain ⟨data, fs4, hbody, hj1, hdata, hj2, hg2, hfree⟩ :=
    createUpdateBody_idempotent z cfg fs path platform h1 hsame
  have e1 : (createUpdate z cfg fs path platform).1 =
      (createUpdateBody z cfg fs path platform).1 := rfl
  have e2 : (createUpdate z cfg (createUpdateBody z cfg fs path platform).1 path platform) =
      (fs4, [Event.sendUpdate platform, Event.wgDone]) := by
    simp only [createUpdate, hbody]
    rfl
  rw [e1, e2]
  refine ⟨rfl, ⟨data, hdata, hj1, by rw [← hj1]; exact hj2⟩, hg2, ?_, hfree⟩
  intro a b ha hb
  simp only at hb
  rw [hg2, ha] at hb
  cases hb
  rfl

set_option maxRecDepth 100000 in
theorem createUpdate_idempotent_witness :
    ((createUpdate frameGzip cfg0 fs0 "bin/linux-amd64" "linux-amd64").2 =
        [Event.sendUpdate "linux-amd64", Event.wgDone] ∧
      (createUpdate frameGzip cfg0 fs0 "bin/linux-amd64" "linux-amd64").1.nodes
          (resolve "bin/linux-amd64") = fs0.nodes (resolve "bin/linux-amd64")) ∧
    (createUpdate frameGzip cfg0
        (createUpdate frameGzip cfg0 fs0 "bin/linux-amd64" "linux-amd64").1
        "bin/linux-amd64" "linux-amd64").2 = [Event.sendUpdate "linux-amd64", Event.wgDone] ∧
    (createUpdate frameGzip cfg0
        (createUpdate frameGzip cfg0 fs0 "bin/linux-amd64" "linux-amd64").1
        "bin/linux-amd64" "linux-amd64").1.nodes
        (resolve (gzipPath cfg0.genDir cfg0.version "linux-amd64")) =
      (createUpdate frameGzip cfg0 fs0 "bin/linux-amd64" "linux-amd64").1.nodes
        (resolve (gzipPath cfg0.genDir cfg0.version "linux-amd64")) :=
  ⟨⟨by decide, by decide⟩,
    (createUpdate_idempotent frameGzip cfg0 fs0 "bin/linux-amd64" "linux-amd64"
      (by decide) (by decide)).1,
    (createUpdate_idempotent frameGzip cfg0 fs0 "bin/linux-amd64" "linux-amd64"
      (by decide) (by decide)).2.2.1⟩

/-! ## Frame lemmas: which nodes an operation can change -/

theorem osWrite_nodes_other (fs : FS) (w q : Loc) (path : String) (data : Bytes) (h : q ≠ w) :
    (osWrite fs w path data).1.nodes q = fs.nodes q := by
  unfold osWrite
  split
  · split <;> simp [FS.set, h]
  · rfl

theorem osCreate_nodes_other (fs fs1 : FS) (path : String) (q : Loc)
    (hc : osCreate fs path = Except.ok fs1) (h : q ≠ resolve path) :
    fs1.nodes q = fs.nodes q := by
  obtain ⟨_, _, _, hn, _⟩ := osCreate_ok _ _ _ hc
  rw [hn, FS.set_nodes_other _ _ _ _ h]

theorem createGzipFile_nodes_other (z : Gzip) (fs : FS) (path t : String) (q : Loc)
    (h : q ≠ resolve t) : (createGzipFile z fs path t).1.nodes q = fs.nodes q := by
  unfold createGzipFile
  cases ho : osOpen fs path with
  | error e => rfl
  | ok f =>
    cases hc : osCreate fs t with
    | error e => rfl
    | ok fsc =>
      have h1 := osCreate_nodes_other fs fsc t q hc h
      cases hr : osReadAll fsc f path with
      | error e =>
        simp only [hr]
        rw [osWrite_nodes_other _ _ _ _ _ h, h1]
      | ok data =>
        simp only [hr]
        have h2 := osWrite_nodes_other fsc (resolve t) q t
          ((z.compress data).take (z.eager data)) h
        generalize osWrite fsc (resolve t) t ((z.compress data).take (z.eager data)) = r at h2
        obtain ⟨fs2, err⟩ := r
        cases err with
        | some e =>
          simp only at h2 ⊢
          rw [h2, h1]
        | none =>
          simp only at h2 ⊢
          rw [osWrite_nodes_other _ _ _ _ _ h, h2, h1]

theorem mkdirAllAux_of_dir (rooted : Bool) (fs : FS) (cs : List (List Char))
    (h : fs.nodes { rooted := rooted, comps := cs.reverse } = some Node.dir) :
    mkdirAllAux rooted fs cs = Except.ok fs := by
  cases cs with
  | nil =>
    simp only [List.reverse_nil] at h
    simp [mkdirAllAux, h]
  | cons c rest => simp only [mkdirAllAux, h]

theorem afterMkdirAll_of_dir (fs : FS) (path : String)
    (h : fs.nodes (resolve path) = some Node.dir) : afterMkdirAll fs path = fs := by
  unfold afterMkdirAll osMkdirAll
  by_cases hp : path.data = []
  · simp [hp]
  · rw [if_neg hp, mkdirAllAux_of_dir _ _ _ (by rw [List.reverse_reverse]; exact h)]

/-- Below an existing directory `os.MkdirAll` makes at most the one missing
directory. -/
theorem afterMkdirAll_child (fs : FS) (path : String) (q : Loc)
    (hpar : fs.nodes (resolve path).parent = some Node.dir) (h : q ≠ resolve path) :
    (afterMkdirAll fs path).nodes q = fs.nodes q := by
  unfold afterMkdirAll
  cases hm : osMkdirAll fs path with
  | error e => rfl
  | ok fs3 =>
    simp only
    unfold osMkdirAll at hm
    split at hm
    · cases hm
    · cases hcs : (resolve path).comps.reverse with
      | nil =>
        rw [hcs] at hm
        simp only [mkdirAllAux] at hm
        split at hm
        · cases hm; rfl
        · cases hm
        · cases hm
      | cons c rest =>
        have hcomps : (resolve path).comps = (c :: rest).reverse := by
          rw [← hcs, List.reverse_reverse]
        have hl : resolve path =
            { rooted := (resolve path).rooted, comps := (c :: rest).reverse } := by
          rw [← hcomps]
        have hp : (resolve path).parent =
            { rooted := (resolve path).rooted, comps := rest.reverse } := by
          simp [Loc.parent, hcomps]
        rw [hcs] at hm
        simp only [mkdirAllAux] at hm
        split at hm
        · cases hm; rfl
        · cases hm
        · rw [mkdirAllAux_of_dir _ _ _ (by rw [← hp]; exact hpar)] at hm
          simp only at hm
          obtain ⟨_, rfl⟩ := osMkdir_ok _ _ _ hm
          exact FS.set_nodes_other _ _ _ _ (by rw [← hl]; exact h)

/-- The nodes `createUpdate` can change are the manifest, the version directory
and the archive, as soon as the version directory is the output directory or
sits directly in the directory of the manifest. -/
theorem createUpdate_nodes_other (z : Gzip) (cfg : Config) (fs : FS) (path platform : String)
    (q : Loc)
    (hv : resolve (versionDir cfg.genDir cfg.version) =
        (resolve (jsonPath cfg.genDir platform)).parent ∨
      (resolve (versionDir cfg.genDir cfg.version)).parent =
        (resolve (jsonPath cfg.genDir platform)).parent)
    (hj : q ≠ resolve (jsonPath cfg.genDir platform))
    (hd : q ≠ resolve (versionDir cfg.genDir cfg.version))
    (hg : q ≠ resolve (gzipPath cfg.genDir cfg.version platform)) :
    (createUpdate z cfg fs path platform).1.nodes q = fs.nodes q := by
  show (createUpdateBody z cfg fs path platform).1.nodes q = fs.nodes q
  unfold createUpdateBody
  cases hs : generateSha256 fs path with
  | error e => rfl
  | ok sum =>
    cases hc : osCreate fs (jsonPath cfg.genDir platform) with
    | error e => rfl
    | ok fs1 =>
      obtain ⟨_, hpar, _, hn1, _⟩ := osCreate_ok _ _ _ hc
      have h1 := osCreate_nodes_other fs fs1 _ q hc hj
      simp only
      have h2 := osWrite_nodes_other fs1 (resolve (jsonPath cfg.genDir platform)) q
        (jsonPath cfg.genDir platform)
        (utf8 (encodeCurrent { Version := cfg.version, Sha256 := sprintfHex sum }).data) hj
      have hpar2 : ∀ l, l ≠ resolve (jsonPath cfg.genDir platform) →
          (osWrite fs1 (resolve (jsonPath cfg.genDir platform)) (jsonPath cfg.genDir platform)
            (utf8 (encodeCurrent { Version := cfg.version, Sha256 := sprintfHex sum }).data)).1.nodes
            l = fs.nodes l := by
        intro l hl
        rw [osWrite_nodes_other _ _ _ _ _ hl, osCreate_nodes_other fs fs1 _ l hc hl]
      generalize osWrite fs1 (resolve (jsonPath cfg.genDir platform))
        (jsonPath cfg.genDir platform)
        (utf8 (encodeCurrent { Version := cfg.version, Sha256 := sprintfHex sum }).data) = r
        at h2 hpar2
      obtain ⟨fs2, err⟩ := r
      cases err with
      | some e =>
        simp only at h2 ⊢
        rw [h2, h1]
      | none =>
        simp only at h2 hpar2 ⊢
        have hpj : fs2.nodes (resolve (jsonPath cfg.genDir platform)).parent = some Node.dir := by
          rw [hpar2 _ (Loc.parent_ne _ (jsonPath_comps_ne_nil _ _)), hpar]
        have h3 : (afterMkdirAll fs2 (versionDir cfg.genDir cfg.version)).nodes q = fs2.nodes q := by
          rcases hv with e | e
          · rw [afterMkdirAll_of_dir fs2 _ (by rw [e]; exact hpj)]
          · exact afterMkdirAll_child fs2 _ q (by rw [e]; exact hpj) hd
        have h4 := createGzipFile_nodes_other z
          (afterMkdirAll fs2 (versionDir cfg.genDir cfg.version)) path
          (gzipPath cfg.genDir cfg.version platform) q hg
        generalize createGzipFile z (afterMkdirAll fs2 (versionDir cfg.genDir cfg.version)) path
          (gzipPath cfg.genDir cfg.version platform) = r4 at h4
        obtain ⟨fs4, err4⟩ := r4
        cases err4 <;> simp only at h4 ⊢ <;> rw [h4, h3, h2, h1]

/-- A successful `mkdirAllAux` leaves the target a directory and touches no
location with more elements than the target. -/
theorem mkdirAllAux_ok_target (rooted : Bool) (cs : List (List Char)) (fs fs1 : FS)
    (h : mkdirAllAux rooted fs cs = Except.ok fs1) :
    fs1.nodes { rooted := rooted, comps := cs.reverse } = some Node.dir ∧
    ∀ q : Loc, cs.length < q.comps.length → fs1.nodes q = fs.nodes q := by
  induction cs generalizing fs1 with
  | nil =>
    unfold mkdirAllAux at h
    split at h
    · rename_i hd
      cases h
      exact ⟨hd, fun _ _ => rfl⟩
    · cases h
    · cases h
  | cons c rest ih =>
    unfold mkdirAllAux at h
    split at h
    · rename_i hd
      cases h
      exact ⟨hd, fun _ _ => rfl⟩
    · cases h
    · split at h
      · cases h
      · rename_i fs0 h0
        obtain ⟨_, hq⟩ := ih fs0 h0
        obtain ⟨_, rfl⟩ := osMkdir_ok _ _ _ h
        refine ⟨FS.set_nodes_same _ _ _, fun q hlen => ?_⟩
        have hne : q ≠ { rooted := rooted, comps := (c :: rest).reverse } := by
          intro e
          rw [e] at hlen
          simp at hlen
        rw [FS.set_nodes_other _ _ _ _ hne]
        exact hq q (by simp at hlen ⊢; omega)

/-- The model of `os.MkdirAll` loses nothing by returning no state with an
error: once the parent has been made, making the missing target cannot fail, so
a failing call has made no directory. -/
theorem osMkdir_after_mkdirAllAux (rooted : Bool) (c : List Char) (rest : List (List Char))
    (fs fs1 : FS)
    (hnone : fs.nodes { rooted := rooted, comps := (c :: rest).reverse } = none)
    (h : mkdirAllAux rooted fs rest = Except.ok fs1) :
    osMkdir fs1 { rooted := rooted, comps := (c :: rest).reverse } =
      Except.ok (fs1.set { rooted := rooted, comps := (c :: rest).reverse } Node.dir) := by
  obtain ⟨hd, hq⟩ := mkdirAllAux_ok_target rooted rest fs fs1 h
  have h1 : fs1.nodes { rooted := rooted, comps := (c :: rest).reverse } = none := by
    rw [hq _ (by simp), hnone]
  have h2 : fs1.nodes (Loc.parent { rooted := rooted, comps := (c :: rest).reverse }) =
      some Node.dir := by
    simpa [Loc.parent] using hd
  simp only [osMkdir, h1, h2]

/-- For every codec and every input: on a volume whose room ends where the
bytes emitted before `Close` end, `createGzipFile` returns nil and leaves a
proper prefix of the stream. -/
theorem createGzipFile_nil_with_short_stream (z : Gzip) (fs : FS) (path t : String)
    (data : Bytes) (hp : path.data ≠ []) (ht : t.data ≠ [])
    (hne : resolve path ≠ resolve t)
    (hdata : fs.nodes (resolve path) = some (Node.file data))
    (hpar : fs.nodes (resolve t).parent = some Node.dir)
    (hnd : fs.nodes (resolve t) ≠ some Node.dir)
    (hroom : fs.free + fs.size (resolve t) = z.eager data) :
    (createGzipFile z fs path t).2 = none ∧
    (createGzipFile z fs path t).1.nodes (resolve t) =
      some (Node.file ((z.compress data).take (z.eager data))) ∧
    ((z.compress data).take (z.eager data)).length < (z.compress data).length := by
  have h := createGzipFile_of z fs path t data hp (by rw [hdata]; simp) ht hpar hnd
    (by rw [FS.set_nodes_other _ _ _ _ hne]; exact hdata) (Nat.le_of_eq hroom.symm)
  rw [h]
  refine ⟨rfl, ?_, ?_⟩
  · rw [gzWritten_nodes_same, hroom]
  · rw [List.length_take]
    exact lt_of_le_of_lt (Nat.min_le_left _ _) (z.eager_lt data)

theorem Loc.parent_append_singleton (r : Bool) (cs : List (List Char)) (c : List Char) :
    Loc.parent { rooted := r, comps := cs ++ [c] } = { rooted := r, comps := cs } := by
  simp [Loc.parent]

/-- C8, as stated, fails: with the platform identifier `../evil` the manifest
path `filepath.Join("public", "../evil.json")` is `evil.json`, a sibling of the
output directory, and a successful run of `createUpdate` creates that file;
with the version `..` the directory that `MkdirAll` receives is the parent of
the output directory. -/
theorem createUpdate_paths_escape_genDir :
    jsonPath "public" "../evil" = "evil.json" ∧
    ¬ (resolve "public").under (resolve (jsonPath "public" "../evil")) ∧
    (createUpdate frameGzip cfg0 fsCwd "bin/linux-amd64" "../evil").2 =
      [Event.sendUpdate "../evil", Event.wgDone] ∧
    fsCwd.nodes (resolve "evil.json") = none ∧
    (createUpdate frameGzip cfg0 fsCwd "bin/linux-amd64" "../evil").1.nodes
      (resolve "evil.json") = some (Node.file (manifestBytes cfg0 [65])) ∧
    versionDir "out/public" ".." = "out" ∧
    ¬ (resolve "out/public").under (resolve (versionDir "out/public" "..")) := by
  set_option maxRecDepth 100000 in decide

/-- C8 (amended): when the platform identifier and the version label contain no
path separator and the version is not `..`, the manifest path, the version
directory and the archive path of `createUpdate` all lie under `genDir`, and a
run of `createUpdate` leaves every node that is not under `genDir` as it was. -/
theorem createUpdate_paths_under_genDir (genDir version platform : String)
    (hp : '/' ∉ platform.data) (hv : '/' ∉ version.data) (hdd : version ≠ "..") :
    (resolve genDir).under (resolve (jsonPath genDir platform)) ∧
    (resolve genDir).under (resolve (versionDir genDir version)) ∧
    (resolve genDir).under (resolve (gzipPath genDir version platform)) ∧
    ∀ (z : Gzip) (fs : FS) (path : String) (q : Loc), ¬ (resolve genDir).under q →
      (createUpdate z { version := version, genDir := genDir } fs path platform).1.nodes q =
        fs.nodes q := by
  have hdd' : version.data ≠ dotdot := fun e => hdd (String.ext e)
  obtain ⟨rest, hrest, hvd⟩ := under_versionDir genDir version hv hdd'
  have hj : dotdot ≠ platform.data ++ ".json".data := fun e =>
    (Plain_append_suffix _ _ hp (by decide) (by decide)).2.2.1 e.symm
  have hg : dotdot ≠ platform.data ++ ".gz".data := fun e =>
    (Plain_append_suffix _ _ hp (by decide) (by decide)).2.2.1 e.symm
  have h1 : (resolve genDir).under (resolve (jsonPath genDir platform)) := by
    rw [resolve_jsonPath genDir platform hp]
    exact Loc.under_append _ _ (by simpa using hj)
  have h2 : (resolve genDir).under (resolve (versionDir genDir version)) := by
    rw [hvd]
    exact Loc.under_append _ _ hrest
  have h3 : (resolve genDir).under (resolve (gzipPath genDir version platform)) := by
    rw [resolve_gzipPath genDir version platform hp, hvd]
    simp only [List.append_assoc]
    exact Loc.under_append _ _ (by simp [hrest, hg])
  refine ⟨h1, h2, h3, ?_⟩
  intro z fs path q hq
  have hpj : (resolve (jsonPath genDir platform)).parent = resolve genDir := by
    rw [resolve_jsonPath genDir platform hp, Loc.parent_append_singleton]
  have hvv : resolve (versionDir genDir version) = (resolve (jsonPath genDir platform)).parent ∨
      (resolve (versionDir genDir version)).parent =
        (resolve (jsonPath genDir platform)).parent := by
    rw [hpj, resolve_versionDir genDir version hv]
    by_cases hskip : version.data = [] ∨ version.data = ['.']
    · left
      simp [hskip]
    · right
      simp only [hskip, if_false]
      rw [Loc.extend_plain _ _ ⟨fun e => hskip (Or.inl e), fun e => hskip (Or.inr e), hdd', hv⟩,
        Loc.parent_append_singleton]
  exact createUpdate_nodes_other z { version := version, genDir := genDir } fs path platform q hvv
    (fun e => hq (e ▸ h1)) (fun e => hq (e ▸ h2)) (fun e => hq (e ▸ h3))

theorem createUpdate_paths_under_genDir_witness :
    ('/' ∉ "linux-amd64".data ∧ '/' ∉ "1.2.0".data ∧ "1.2.0" ≠ "..") ∧
    (resolve "public").under (resolve (jsonPath "public" "linux-amd64")) ∧
    (resolve "public").under (resolve (versionDir "public" "1.2.0")) ∧
    (resolve "public").under (resolve (gzipPath "public" "1.2.0" "linux-amd64")) ∧
    (createUpdate frameGzip { version := "1.2.0", genDir := "public" } fs0 "bin/linux-amd64"
      "linux-amd64").1.nodes (resolve "bin/linux-amd64") = fs0.nodes (resolve "bin/linux-amd64") :=
  ⟨by decide,
    (createUpdate_paths_under_genDir "public" "1.2.0" "linux-amd64"
      (by decide) (by decide) (by decide)).1,
    (createUpdate_paths_under_genDir "public" "1.2.0" "linux-amd64"
      (by decide) (by decide) (by decide)).2.1,
    (createUpdate_paths_under_genDir "public" "1.2.0" "linux-amd64"
      (by decide) (by decide) (by decide)).2.2.1,
    (createUpdate_paths_under_genDir "public" "1.2.0" "linux-amd64"
      (by decide) (by decide) (by decide)).2.2.2 frameGzip fs0 "bin/linux-amd64"
      (resolve "bin/linux-amd64") (by decide)⟩

/-- C3, as stated, fails: `main` gives every task the same platform, so the
tasks for the two inputs `linux-amd64` and `darwin-arm64` both write
`public/linux-amd64.json` and `public/1.2.0/linux-amd64.gz`; when the two tasks
run one after the other, both report success, the manifest and the archive hold
the data of the second input only, and nothing is written for
`darwin-arm64`. -/
theorem launch_tasks_share_targets :
    (launch "bin" "linux-amd64" ["linux-amd64", "darwin-arm64"]).map
        (fun t => (t.path, jsonPath "public" t.platform, gzipPath "public" "1.2.0" t.platform)) =
      [("bin/linux-amd64", "public/linux-amd64.json", "public/1.2.0/linux-amd64.gz"),
       ("bin/darwin-arm64", "public/linux-amd64.json", "public/1.2.0/linux-amd64.gz")] ∧
    ¬ OwnTargets { version := "1.2.0", genDir := "public" }
        (launch "bin" "linux-amd64" ["linux-amd64", "darwin-arm64"]) ∧
    (createUpdate frameGzip cfg0 fsTwo "bin/linux-amd64" "linux-amd64").2 =
      [Event.sendUpdate "linux-amd64", Event.wgDone] ∧
    (createUpdate frameGzip cfg0
      (createUpdate frameGzip cfg0 fsTwo "bin/linux-amd64" "linux-amd64").1
      "bin/darwin-arm64" "linux-amd64").2 = [Event.sendUpdate "linux-amd64", Event.wgDone] ∧
    (createUpdate frameGzip cfg0
      (createUpdate frameGzip cfg0 fsTwo "bin/linux-amd64" "linux-amd64").1
      "bin/darwin-arm64" "linux-amd64").1.nodes (resolve "public/linux-amd64.json") =
      some (Node.file (manifestBytes cfg0 [66])) ∧
    (createUpdate frameGzip cfg0
      (createUpdate frameGzip cfg0 fsTwo "bin/linux-amd64" "linux-amd64").1
      "bin/darwin-arm64" "linux-amd64").1.nodes (resolve "public/1.2.0/linux-amd64.gz") =
      some (Node.file (frameGzip.compress [66])) ∧
    (createUpdate frameGzip cfg0
      (createUpdate frameGzip cfg0 fsTwo "bin/linux-amd64" "linux-amd64").1
      "bin/darwin-arm64" "linux-amd64").1.nodes (resolve "public/darwin-arm64.json") = none := by
  set_option maxRecDepth 100000 in decide

/-- C3 (amended): target paths are owned per platform identifier, not per
task: two tasks whose platform identifiers differ and contain no path separator
have no target file in common, and every task launched by one run of `main`
carries the platform identifier of that run. -/
theorem targets_disjoint_of_platform_ne (cfg : Config) (t u : Task)
    (ht : '/' ∉ t.platform.data) (hu : '/' ∉ u.platform.data) (hne : t.platform ≠ u.platform) :
    (∀ l ∈ t.targets cfg, l ∉ u.targets cfg) ∧
    ∀ (appPath platform : String) (files : List String),
      ∀ x ∈ launch appPath platform files, x.platform = platform := by
  have hd : t.platform.data ≠ u.platform.data := fun e => hne (String.ext e)
  constructor
  · intro l hl hl'
    simp only [Task.targets, List.mem_cons, List.mem_singleton, List.not_mem_nil, or_false]
      at hl hl'
    rcases hl with rfl | rfl <;> rcases hl' with e | e
    · rw [resolve_jsonPath _ _ ht, resolve_jsonPath _ _ hu] at e
      simp at e
      exact hd e
    · exact jsonPath_ne_gzipPath' _ _ _ _ e
    · exact jsonPath_ne_gzipPath' _ _ _ _ e.symm
    · rw [resolve_gzipPath _ _ _ ht, resolve_gzipPath _ _ _ hu] at e
      simp at e
      exact hd e
  · intro appPath platform files x hx
    simp only [launch, List.mem_map] at hx
    obtain ⟨_, _, rfl⟩ := hx
    rfl

theorem targets_disjoint_of_platform_ne_witness :
    ('/' ∉ "linux-amd64".data ∧ '/' ∉ "darwin-arm64".data ∧ "linux-amd64" ≠ "darwin-arm64") ∧
    ((∀ l ∈ Task.targets { version := "1.2.0", genDir := "public" }
        { path := "bin/a", platform := "linux-amd64" },
      l ∉ Task.targets { version := "1.2.0", genDir := "public" }
        { path := "bin/b", platform := "darwin-arm64" }) ∧
    ∀ (appPath platform : String) (files : List String),
      ∀ x ∈ launch appPath platform files, x.platform = platform) :=
  ⟨by decide, targets_disjoint_of_platform_ne { version := "1.2.0", genDir := "public" }
    { path := "bin/a", platform := "linux-amd64" } { path := "bin/b", platform := "darwin-arm64" }
    (by decide) (by decide) (by decide)⟩

/-! ## The goroutines -/

theorem getElem?_decomp {α : Type} (l : List α) (i : Nat) (a : α) (h : l[i]? = some a) :
    ∃ l1 l2, l = l1 ++ a :: l2 ∧ l1.length = i ∧ ∀ b, l.set i b = l1 ++ b :: l2 := by
  induction l generalizing i with
  | nil => simp at h
  | cons x xs ih =>
    cases i with
    | zero =>
      simp at h
      subst h
      exact ⟨[], xs, rfl, rfl, fun b => rfl⟩
    | succ n =>
      simp at h
      obtain ⟨l1, l2, e, hl, hs⟩ := ih n h
      exact ⟨x :: l1, l2, by simp [e], by simp [hl], fun b => by simp [hs]⟩

theorem getElem?_of_decomp {α : Type} (l1 l2 : List α) (a : α) :
    (l1 ++ a :: l2)[l1.length]? = some a := by
  induction l1 with
  | nil => simp
  | cons x xs ih => simpa using ih

theorem createUpdate_events_shape (z : Gzip) (cfg : Config) (fs : FS) (path platform : String) :
    ∃ e, e.isSend = true ∧ (createUpdate z cfg fs path platform).2 = [e, Event.wgDone] := by
  rcases createUpdateBody_sends_once z cfg fs path platform with h | ⟨err, h⟩
  · exact ⟨Event.sendUpdate platform, rfl, (createUpdate_events _ _ _ _ _ _).2 h⟩
  · exact ⟨Event.sendError err, rfl, (createUpdate_events _ _ _ _ _ _).2 h⟩

theorem afterSelect_of_not_both (un en : Bool) (h : ¬ (un = true ∧ en = true)) :
    afterSelect un en = MainPc.selecting un en := by
  cases un <;> cases en <;> simp [afterSelect] at h ⊢

theorem Inv.init (p : Params) (files : List String) : Inv p files (Sys.init files) where
  notCrashed := rfl
  shape := by simp [Sys.init]
  counter := rfl
  printed := by simp [Sys.init]
  launched := by simp [Sys.init, MainPc.rest]
  closerIdle := by simp [Sys.init]
  closerPast := by simp [Sys.init]
  mainSel := by simp [Sys.init]
  mainExit := by simp [Sys.init]

theorem Inv.step_launch (p : Params) (files : List String) (s : Sys) (f : String)
    (rest : List String) (hinv : Inv p files s) (hm : s.main = MainPc.launching (f :: rest)) :
    Inv p files { s with
      main := MainPc.launching rest
      wg := s.wg + 1
      tasks := s.tasks ++
        [{ task := { path := Join [p.appPath, f], platform := p.platform },
           events := none, pc := 0 }] } where
  notCrashed := hinv.notCrashed
  shape := by
    intro g hg
    simp only [List.mem_append, List.mem_singleton] at hg
    rcases hg with hg | rfl
    · exact hinv.shape g hg
    · exact Or.inl ⟨rfl, rfl⟩
  counter := by
    simp [List.countP_append, hinv.counter]
  printed := by
    simp only [List.filterMap_append, List.filterMap_cons, List.filterMap_nil]
    simpa [Goroutine.reported] using hinv.printed
  launched := by
    have := hinv.launched
    rw [hm] at this
    simpa [MainPc.rest, launch] using this
  closerIdle := by
    have := hinv.closerIdle
    simp only [hm] at this
    simpa using this
  closerPast := by
    intro h
    have h1 : s.closer = CloserPc.idle := hinv.closerIdle.2 ⟨_, hm⟩
    simp [h1] at h
  mainSel := by simp
  mainExit := by simp

theorem Inv.step_spawn (p : Params) (files : List String) (s : Sys) (hinv : Inv p files s)
    (hm : s.main = MainPc.launching []) :
    Inv p files { s with main := MainPc.selecting false false, closer := CloserPc.waiting } where
  notCrashed := hinv.notCrashed
  shape := hinv.shape
  counter := hinv.counter
  printed := hinv.printed
  launched := by
    have := hinv.launched
    rw [hm] at this
    simpa [MainPc.rest] using this
  closerIdle := by simp
  closerPast := by simp
  mainSel := by simp
  mainExit := by simp

theorem Inv.step_closer (p : Params) (files : List String) (s : Sys) (c : CloserPc)
    (hinv : Inv p files s) (hidle : s.closer ≠ CloserPc.idle) (hc : c ≠ CloserPc.idle)
    (hwg : s.wg = 0)
    (hmono : ∀ un en, s.main = MainPc.selecting un en →
      (un = true → c = CloserPc.closedUpdates ∨ c = CloserPc.closedBoth) ∧
      (en = true → c = CloserPc.closedBoth))
    (hex : s.main ≠ MainPc.exited) :
    Inv p files { s with closer := c } where
  notCrashed := hinv.notCrashed
  shape := hinv.shape
  counter := hinv.counter
  printed := hinv.printed
  launched := hinv.launched
  closerIdle := by
    have := hinv.closerIdle
    simp only [hidle, false_iff] at this
    simp only [hc, false_iff]
    exact this
  closerPast := fun _ => hwg
  mainSel := by
    intro un en hm
    obtain ⟨h1, h2⟩ := hmono un en hm
    refine ⟨fun h => ?_, fun h => ?_, (hinv.mainSel un en hm).2.2⟩
    · simpa [Sys.updatesClosed] using h1 h
    · simpa [Sys.errorsClosed] using h2 h
  mainExit := fun h => absurd h hex

theorem Inv.step_main (p : Params) (files : List String) (s : Sys) (un en un1 en1 : Bool)
    (hinv : Inv p files s) (hm : s.main = MainPc.selecting un en)
    (hu : un1 = true → s.updatesClosed = true) (he : en1 = true → s.errorsClosed = true) :
    Inv p files { s with main := afterSelect un1 en1 } where
  notCrashed := hinv.notCrashed
  shape := hinv.shape
  counter := hinv.counter
  printed := hinv.printed
  launched := by
    have := hinv.launched
    rw [hm] at this
    cases un1 <;> cases en1 <;> simpa [afterSelect, MainPc.rest] using this
  closerIdle := by
    have := hinv.closerIdle
    simp only [hm, exists_false, iff_false] at this
    cases un1 <;> cases en1 <;> simp [afterSelect, this]
  closerPast := hinv.closerPast
  mainSel := by
    intro a b hab
    cases un1 <;> cases en1 <;> simp [afterSelect] at hab <;> obtain ⟨rfl, rfl⟩ := hab <;>
      simp_all [Sys.updatesClosed, Sys.errorsClosed]
  mainExit := by
    intro h
    cases un1 <;> cases en1 <;> simp [afterSelect] at h
    have h2 := he rfl
    simpa [Sys.errorsClosed] using h2

theorem Inv.step_task (p : Params) (files : List String) (s : Sys) (l1 l2 : List Goroutine)
    (g g1 : Goroutine) (wg1 : Nat) (out1 : List Line) (hinv : Inv p files s)
    (hs : s.tasks = l1 ++ g :: l2) (htask : g1.task = g.task)
    (hshape : (g1.events = none ∧ g1.pc = 0) ∨
      ∃ e, e.isSend = true ∧ g1.events = some [e, Event.wgDone] ∧ g1.pc ≤ 2)
    (hcnt : wg1 + (if g.pc < 2 then 1 else 0) = s.wg + (if g1.pc < 2 then 1 else 0))
    (hmono : g.pc ≤ g1.pc)
    (hrep : (g1.reported = g.reported ∧ out1 = s.out) ∨
      (g.reported = none ∧ ∃ ln, g1.reported = some ln ∧ out1 = s.out ++ [ln])) :
    Inv p files { s with tasks := l1 ++ g1 :: l2, wg := wg1, out := out1 } where
  notCrashed := hinv.notCrashed
  shape := by
    intro x hx
    simp only [List.mem_append, List.mem_cons] at hx
    rcases hx with hx | rfl | hx
    · exact hinv.shape x (by simp [hs, hx])
    · exact hshape
    · exact hinv.shape x (by simp [hs, hx])
  counter := by
    have h := hinv.counter
    rw [hs] at h
    simp only [List.countP_append, List.countP_cons, decide_eq_true_eq] at h ⊢
    omega
  printed := by
    have h := hinv.printed
    rw [hs] at h
    simp only [List.filterMap_append, List.filterMap_cons] at h ⊢
    rcases hrep with ⟨e1, e2⟩ | ⟨e1, ln, e2, e3⟩
    · simp only [e1, e2]
      exact h
    · simp only [e1, e2, e3] at h ⊢
      exact (List.perm_append_singleton ln s.out).trans
        ((List.Perm.cons ln h).trans List.perm_middle.symm)
  launched := by
    have h := hinv.launched
    rw [hs] at h
    simpa [htask] using h
  closerIdle := hinv.closerIdle
  closerPast := by
    intro h
    have h0 := hinv.closerPast h
    have hc := hinv.counter
    rw [hs, h0] at hc
    simp only [List.countP_append, List.countP_cons, decide_eq_true_eq] at hc
    simp only
    split_ifs at hcnt hc <;> omega
  mainSel := hinv.mainSel
  mainExit := hinv.mainExit

theorem Goroutine.next_shape (g : Goroutine) (e : Event) (hs : e.isSend = true)
    (he : g.events = some [e, Event.wgDone]) :
    (g.next = some e ↔ g.pc = 0) ∧ (g.next = some Event.wgDone ↔ g.pc = 1) ∧
      (∀ x, g.next = some x → g.pc < 2) := by
  simp only [Goroutine.next, he]
  rcases hpc : g.pc with _ | _ | n
  · refine ⟨by simp, ?_, by simp⟩
    simp only [List.getElem?_cons_zero, Option.some.injEq]
    constructor
    · intro h; subst h; simp [Event.isSend] at hs
    · intro h; simp at h
  · refine ⟨?_, by simp, by simp⟩
    simp only [List.getElem?_cons_succ, List.getElem?_cons_zero, Option.some.injEq]
    constructor
    · intro h; subst h; simp [Event.isSend] at hs
    · intro h; simp at h
  · simp

theorem Goroutine.reported_eq_none_of_pc_zero (g : Goroutine) (h : g.pc = 0) :
    g.reported = none := by
  simp [Goroutine.reported, h]

/-- Every step keeps the invariant. -/
theorem Inv.step (p : Params) (files : List String) (s s1 : Sys) (a : Action)
    (hinv : Inv p files s) (h : step p s a = some s1) : Inv p files s1 := by
  unfold Shrupdate.step at h
  rw [if_neg (by simp [hinv.notCrashed])] at h
  split at h
  · cases h
  rename_i hex
  cases a with
  | launch =>
    simp only at h
    split at h
    · rename_i f rest hm
      cases h
      exact Inv.step_launch p files s f rest hinv hm
    · cases h
  | spawnCloser =>
    simp only at h
    split at h
    · rename_i hm
      cases h
      exact Inv.step_spawn p files s hinv hm
    · cases h
  | body i fs =>
    simp only at h
    cases hg : s.tasks[i]? with
    | none => simp [hg] at h
    | some g =>
      simp only [hg] at h
      cases he : g.events with
      | some es => simp [he] at h
      | none =>
        simp only [he] at h
        cases h
        obtain ⟨l1, l2, hs, _, hset⟩ := getElem?_decomp _ _ _ hg
        rw [hset]
        have hpc : g.pc = 0 := by
          rcases hinv.shape g (by simp [hs]) with ⟨_, h0⟩ | ⟨e, _, h1, _⟩
          · exact h0
          · rw [he] at h1; cases h1
        obtain ⟨e, hsend, hev⟩ :=
          createUpdate_events_shape p.z p.cfg fs g.task.path g.task.platform
        exact Inv.step_task p files s l1 l2 g _ s.wg s.out hinv hs rfl
          (Or.inr ⟨e, hsend, by rw [hev], by show g.pc ≤ 2; omega⟩) rfl (Nat.le_refl _)
          (Or.inl ⟨by
            rw [Goroutine.reported_eq_none_of_pc_zero g hpc]
            exact Goroutine.reported_eq_none_of_pc_zero _ hpc, rfl⟩)
  | recv i =>
    simp only at h
    cases hg : s.tasks[i]? with
    | none => simp [hg] at h
    | some g =>
      simp only [hg] at h
      obtain ⟨l1, l2, hs, _, hset⟩ := getElem?_decomp _ _ _ hg
      have hshape := hinv.shape g (by simp [hs])
      split at h
      · rename_i pl en hnext hm
        split at h
        · cases h
        · cases h
          rcases hshape with ⟨h0, _⟩ | ⟨e, hsend, hev, _⟩
          · simp [Goroutine.next, h0] at hnext
          · obtain ⟨hn0, hn1, _⟩ := Goroutine.next_shape g e hsend hev
            have hpc : g.pc = 0 := by
              by_contra hne
              have : g.pc = 1 := by
                have := (Goroutine.next_shape g e hsend hev).2.2 _ hnext
                omega
              have h2 := hn1.2 this
              rw [hnext] at h2
              cases h2
            have he : e = Event.sendUpdate pl := by
              have := hn0.2 hpc
              rw [hnext] at this
              cases this
              rfl
            subst he
            rw [hset, afterSelect_of_not_both _ _ (by simp), ← hm]
            exact Inv.step_task p files s l1 l2 g _ s.wg _ hinv hs rfl
              (Or.inr ⟨_, hsend, hev, by show g.pc + 1 ≤ 2; omega⟩)
              (by show s.wg + _ = s.wg + (if g.pc + 1 < 2 then 1 else 0); simp [hpc])
              (Nat.le_succ _)
              (Or.inr ⟨Goroutine.reported_eq_none_of_pc_zero g hpc, Line.created pl,
                by simp [Goroutine.reported, Goroutine.line, hev], rfl⟩)
      · rename_i er un hnext hm
        split at h
        · cases h
        · cases h
          rcases hshape with ⟨h0, _⟩ | ⟨e, hsend, hev, _⟩
          · simp [Goroutine.next, h0] at hnext
          · obtain ⟨hn0, hn1, _⟩ := Goroutine.next_shape g e hsend hev
            have hpc : g.pc = 0 := by
              by_contra hne
              have : g.pc = 1 := by
                have := (Goroutine.next_shape g e hsend hev).2.2 _ hnext
                omega
              have h2 := hn1.2 this
              rw [hnext] at h2
              cases h2
            have he : e = Event.sendError er := by
              have := hn0.2 hpc
              rw [hnext] at this
              cases this
              rfl
            subst he
            have hnb : ¬ (un = true ∧ false = true) := by simp
            rw [hset, afterSelect_of_not_both _ _ hnb, ← hm]
            exact Inv.step_task p files s l1 l2 g _ s.wg _ hinv hs rfl
              (Or.inr ⟨_, hsend, hev, by show g.pc + 1 ≤ 2; omega⟩)
              (by show s.wg + _ = s.wg + (if g.pc + 1 < 2 then 1 else 0); simp [hpc])
              (Nat.le_succ _)
              (Or.inr ⟨Goroutine.reported_eq_none_of_pc_zero g hpc, Line.error er,
                by simp [Goroutine.reported, Goroutine.line, hev], rfl⟩)
      · cases h
  | recvClosedUpdates =>
    simp only at h
    split at h
    · rename_i en hm
      split at h
      · rename_i hclosed
        cases h
        exact Inv.step_main p files s false en true en hinv hm (fun _ => hclosed)
          (fun he => (hinv.mainSel false en hm).2.1 he)
      · cases h
    · cases h
  | recvClosedErrors =>
    simp only at h
    split at h
    · rename_i un hm
      split at h
      · rename_i hclosed
        cases h
        exact Inv.step_main p files s un false un true hinv hm
          (fun hu => (hinv.mainSel un false hm).1 hu) (fun _ => hclosed)
      · cases h
    · cases h
  | done i =>
    simp only at h
    cases hg : s.tasks[i]? with
    | none => simp [hg] at h
    | some g =>
      simp only [hg] at h
      obtain ⟨l1, l2, hs, _, hset⟩ := getElem?_decomp _ _ _ hg
      have hshape := hinv.shape g (by simp [hs])
      split at h
      · rename_i hnext
        rcases hshape with ⟨h0, _⟩ | ⟨e, hsend, hev, _⟩
        · simp [Goroutine.next, h0] at hnext
        · have hpc : g.pc = 1 := ((Goroutine.next_shape g e hsend hev).2.1).1 hnext
          have hwg : 1 ≤ s.wg := by
            have hc := hinv.counter
            rw [hs] at hc
            simp only [List.countP_append, List.countP_cons, decide_eq_true_eq] at hc
            simp only [hpc, show (1 : Nat) < 2 by decide, if_true] at hc
            omega
          split at h
          · omega
          · cases h
            rw [hset]
            exact Inv.step_task p files s l1 l2 g _ (s.wg - 1) s.out hinv hs rfl
              (Or.inr ⟨e, hsend, hev, by show g.pc + 1 ≤ 2; omega⟩)
              (by
                show s.wg - 1 + _ = s.wg + (if g.pc + 1 < 2 then 1 else 0)
                simp only [hpc]
                simp
                omega)
              (Nat.le_succ _)
              (Or.inl ⟨by simp [Goroutine.reported, Goroutine.line, hpc], rfl⟩)
      · cases h
  | sendOnClosed i =>
    simp only at h
    cases hg : s.tasks[i]? with
    | none => simp [hg] at h
    | some g =>
      simp only [hg] at h
      obtain ⟨l1, l2, hs, _, _⟩ := getElem?_decomp _ _ _ hg
      have hshape := hinv.shape g (by simp [hs])
      have hopen : ∀ x, g.next = some x →
          s.updatesClosed = false ∧ s.errorsClosed = false := by
        intro x hx
        rcases hshape with ⟨h0, _⟩ | ⟨e, hsend, hev, _⟩
        · simp [Goroutine.next, h0] at hx
        · have hlt := (Goroutine.next_shape g e hsend hev).2.2 x hx
          have hc := hinv.counter
          rw [hs] at hc
          simp only [List.countP_append, List.countP_cons, decide_eq_true_eq, hlt,
            if_true] at hc
          have hpast := hinv.closerPast
          have hwg : s.wg ≠ 0 := by omega
          cases hcl : s.closer <;> simp [Sys.updatesClosed, Sys.errorsClosed, hcl] <;>
            exact hwg (hpast (by simp [hcl]))
      split at h
      · rename_i hnext
        simp [(hopen _ hnext).1] at h
      · rename_i hnext
        simp [(hopen _ hnext).2] at h
      · cases h
  | wake =>
    simp only at h
    split at h
    · rename_i hc
      split at h
      · rename_i hwg
        cases h
        refine Inv.step_closer p files s _ hinv (by simp [hc]) (by simp) hwg ?_ hex
        intro un en hm
        have := hinv.mainSel un en hm
        simp only [Sys.updatesClosed, Sys.errorsClosed, hc] at this
        refine ⟨fun hu => ?_, fun he => ?_⟩
        · simpa using this.1 hu
        · simpa using this.2.1 he
      · cases h
    · cases h
  | closeUpdates =>
    simp only at h
    split at h
    · rename_i hc
      cases h
      refine Inv.step_closer p files s _ hinv (by simp [hc]) (by simp)
        (hinv.closerPast (by simp [hc])) ?_ hex
      intro un en hm
      have := hinv.mainSel un en hm
      simp only [Sys.updatesClosed, Sys.errorsClosed, hc] at this
      refine ⟨fun _ => Or.inl rfl, fun he => ?_⟩
      simpa using this.2.1 he
    · cases h
  | closeErrors =>
    simp only at h
    split at h
    · rename_i hc
      cases h
      refine Inv.step_closer p files s _ hinv (by simp [hc]) (by simp)
        (hinv.closerPast (by simp [hc])) ?_ hex
      intro un en hm
      exact ⟨fun _ => Or.inr rfl, fun _ => rfl⟩
    · cases h

theorem Inv.run (p : Params) (files : List String) (as : List Action) (s s1 : Sys)
    (hinv : Inv p files s) (h : run p s as = some s1) : Inv p files s1 := by
  induction as generalizing s with
  | nil =>
    simp only [Shrupdate.run, Option.some.injEq] at h
    subst h
    exact hinv
  | cons a as ih =>
    simp only [Shrupdate.run] at h
    cases hs : Shrupdate.step p s a with
    | none => simp [hs] at h
    | some s2 =>
      simp only [hs] at h
      exact ih s2 (Inv.step p files s s2 a hinv hs) h

theorem Inv.of_reachable (p : Params) (files : List String) (s : Sys)
    (h : Reachable p files s) : Inv p files s := by
  obtain ⟨as, h⟩ := h
  exact Inv.run p files as _ s (Inv.init p files) h

/-- Once `main` has left the loop, every task has sent and is done. -/
theorem Inv.all_done (p : Params) (files : List String) (s : Sys) (hinv : Inv p files s)
    (hex : s.main = MainPc.exited) :
    ∀ g ∈ s.tasks, ∃ e, e.isSend = true ∧ g.events = some [e, Event.wgDone] ∧ g.pc = 2 := by
  have hwg : s.wg = 0 := hinv.closerPast (Or.inr (Or.inr (hinv.mainExit hex)))
  have hc := hinv.counter
  rw [hwg] at hc
  have hnone := List.countP_eq_zero.1 hc.symm
  intro g hg
  have hpc : ¬ g.pc < 2 := by simpa using hnone g hg
  rcases hinv.shape g hg with ⟨_, h0⟩ | ⟨e, hsend, hev, hle⟩
  · omega
  · exact ⟨e, hsend, hev, by omega⟩

theorem filterMap_reported_of_done (gs : List Goroutine) (h : ∀ g ∈ gs, g.pc = 2) :
    gs.filterMap Goroutine.reported = gs.filterMap Goroutine.line := by
  induction gs with
  | nil => rfl
  | cons g gs ih =>
    have hg : g.reported = g.line := by simp [Goroutine.reported, h g (by simp)]
    simp only [List.filterMap_cons, hg, ih (fun x hx => h x (by simp [hx]))]

theorem filterMap_line_length (gs : List Goroutine)
    (h : ∀ g ∈ gs, ∃ e, e.isSend = true ∧ g.events = some [e, Event.wgDone] ∧ g.pc = 2) :
    (gs.filterMap Goroutine.line).length = gs.length ∧
    ((gs.filterMap Goroutine.line).filter Line.isError).length =
      (gs.filter Goroutine.failed).length := by
  induction gs with
  | nil => simp
  | cons g gs ih =>
    obtain ⟨ih1, ih2⟩ := ih (fun x hx => h x (by simp [hx]))
    obtain ⟨e, hsend, hev, _⟩ := h g (by simp)
    cases e with
    | sendUpdate pl =>
      simp [Goroutine.line, Goroutine.failed, hev, ih1, ih2, Line.isError]
    | sendError er =>
      simp [Goroutine.line, Goroutine.failed, hev, ih1, ih2, Line.isError]
    | wgDone => simp [Event.isSend] at hsend

theorem filter_isCreated_add_isError (ls : List Line) :
    (ls.filter Line.isCreated).length + (ls.filter Line.isError).length = ls.length := by
  induction ls with
  | nil => rfl
  | cons l ls ih =>
    cases l <;> simp [Line.isCreated, Line.isError] <;> omega

/-- The lines printed so far never outnumber the launched tasks. -/
theorem Inv.out_le (p : Params) (files : List String) (s : Sys) (hinv : Inv p files s) :
    s.out.length ≤ files.length := by
  have h1 := hinv.printed.length_eq
  have h2 : (s.tasks.filterMap Goroutine.reported).length ≤ s.tasks.length :=
    List.length_filterMap_le _ _
  have h3 := congrArg List.length hinv.launched
  simp only [List.length_append, List.length_map, launch] at h3
  omega

theorem exists_of_isSome {α : Type} (o : Option α) (h : o.isSome = true) : ∃ x, o = some x := by
  cases o with
  | none => simp at h
  | some x => exact ⟨x, rfl⟩

/-- No deadlock: as long as `main` has not left the loop, some goroutine can
take a step. -/
theorem Inv.progress (p : Params) (files : List String) (s : Sys) (hinv : Inv p files s)
    (hex : s.main ≠ MainPc.exited) : ∃ a s1, Shrupdate.step p s a = some s1 := by
  have hcr := hinv.notCrashed
  cases hm : s.main with
  | exited => exact absurd hm hex
  | launching fs =>
    cases fs with
    | nil =>
      exact ⟨Action.spawnCloser, exists_of_isSome _ (by simp [Shrupdate.step, hcr, hm])⟩
    | cons f rest =>
      exact ⟨Action.launch, exists_of_isSome _ (by simp [Shrupdate.step, hcr, hm])⟩
  | selecting un en =>
    have hidle : s.closer ≠ CloserPc.idle := by
      intro h
      obtain ⟨fs, hfs⟩ := hinv.closerIdle.1 h
      rw [hm] at hfs
      cases hfs
    obtain ⟨hun, hen, hnb⟩ := hinv.mainSel un en hm
    by_cases hex2 : ∃ g ∈ s.tasks, g.pc < 2
    · obtain ⟨g, hg, hlt⟩ := hex2
      obtain ⟨l1, l2, hs⟩ := List.append_of_mem hg
      have hget : s.tasks[l1.length]? = some g := by
        rw [hs]; exact getElem?_of_decomp l1 l2 g
      have hwg : s.wg ≠ 0 := by
        have hc := hinv.counter
        rw [hs] at hc
        simp only [List.countP_append, List.countP_cons, decide_eq_true_eq, hlt, if_true] at hc
        omega
      have hwait : s.closer = CloserPc.waiting := by
        have hpast := hinv.closerPast
        cases hc : s.closer with
        | idle => exact absurd hc hidle
        | waiting => rfl
        | woke => exact absurd (hpast (by simp [hc])) hwg
        | closedUpdates => exact absurd (hpast (by simp [hc])) hwg
        | closedBoth => exact absurd (hpast (by simp [hc])) hwg
      have hun' : un = false := by
        cases un with
        | false => rfl
        | true => simpa [Sys.updatesClosed, hwait] using hun rfl
      have hen' : en = false := by
        cases en with
        | false => rfl
        | true => simpa [Sys.errorsClosed, hwait] using hen rfl
      subst hun' hen'
      rcases hinv.shape g hg with ⟨h0, _⟩ | ⟨e, hsend, hev, _⟩
      · exact ⟨Action.body l1.length fs0,
          exists_of_isSome _ (by simp [Shrupdate.step, hcr, hm, hget, h0])⟩
      · obtain ⟨hn0, hn1, _⟩ := Goroutine.next_shape g e hsend hev
        have hcases : g.pc = 0 ∨ g.pc = 1 := by omega
        rcases hcases with h0 | h1
        · have hnext := hn0.2 h0
          cases e with
          | sendUpdate pl =>
            exact ⟨Action.recv l1.length, exists_of_isSome _
              (by simp [Shrupdate.step, hcr, hm, hget, hnext, Sys.updatesClosed, hwait])⟩
          | sendError er =>
            exact ⟨Action.recv l1.length, exists_of_isSome _
              (by simp [Shrupdate.step, hcr, hm, hget, hnext, Sys.errorsClosed, hwait])⟩
          | wgDone => simp [Event.isSend] at hsend
        · have hnext := hn1.2 h1
          exact ⟨Action.done l1.length, exists_of_isSome _
            (by simp [Shrupdate.step, hcr, hm, hget, hnext, hwg])⟩
    · have hwg : s.wg = 0 := by
        rw [hinv.counter, List.countP_eq_zero]
        intro g hg
        simp only [decide_eq_true_eq]
        exact fun h => hex2 ⟨g, hg, h⟩
      cases hc : s.closer with
      | idle => exact absurd hc hidle
      | waiting =>
        exact ⟨Action.wake, exists_of_isSome _ (by simp [Shrupdate.step, hcr, hm, hc, hwg])⟩
      | woke =>
        exact ⟨Action.closeUpdates, exists_of_isSome _ (by simp [Shrupdate.step, hcr, hm, hc])⟩
      | closedUpdates =>
        exact ⟨Action.closeErrors, exists_of_isSome _ (by simp [Shrupdate.step, hcr, hm, hc])⟩
      | closedBoth =>
        cases un with
        | false =>
          exact ⟨Action.recvClosedUpdates, exists_of_isSome _
            (by simp [Shrupdate.step, hcr, hm, Sys.updatesClosed, hc])⟩
        | true =>
          cases en with
          | false =>
            exact ⟨Action.recvClosedErrors, exists_of_isSome _
              (by simp [Shrupdate.step, hcr, hm, Sys.errorsClosed, hc])⟩
          | true => exact absurd ⟨rfl, rfl⟩ hnb

/-- Every step brings the process closer to its end. -/
theorem Inv.measure_lt (p : Params) (files : List String) (s s1 : Sys) (a : Action)
    (hinv : Inv p files s) (h : Shrupdate.step p s a = some s1) : s1.measure < s.measure := by
  have hcr := hinv.notCrashed
  unfold Shrupdate.step at h
  rw [if_neg (by simp [hcr])] at h
  split at h
  · cases h
  rename_i hex
  cases a with
  | launch =>
    simp only at h
    split at h
    · rename_i f rest hm
      cases h
      simp only [Sys.measure, hm, List.map_append, List.sum_append, List.length_cons]
      simp
      omega
    · cases h
  | spawnCloser =>
    simp only at h
    split at h
    · rename_i hm
      cases h
      have hidle : s.closer = CloserPc.idle := hinv.closerIdle.2 ⟨_, hm⟩
      simp only [Sys.measure, hm, hidle]
      simp
    · cases h
  | body i fs =>
    simp only at h
    cases hg : s.tasks[i]? with
    | none => simp [hg] at h
    | some g =>
      simp only [hg] at h
      cases he : g.events with
      | some es => simp [he] at h
      | none =>
        simp only [he] at h
        cases h
        obtain ⟨l1, l2, hs, _, hset⟩ := getElem?_decomp _ _ _ hg
        obtain ⟨e, _, hev⟩ :=
          createUpdate_events_shape p.z p.cfg fs g.task.path g.task.platform
        simp only [Sys.measure, hset]
        rw [hs]
        simp only [List.map_append, List.sum_append, List.map_cons, List.sum_cons, he, hev]
        simp
        omega
  | recv i =>
    simp only at h
    cases hg : s.tasks[i]? with
    | none => simp [hg] at h
    | some g =>
      simp only [hg] at h
      obtain ⟨l1, l2, hs, _, hset⟩ := getElem?_decomp _ _ _ hg
      have hlt : ∀ x, g.next = some x → ∃ es, g.events = some es ∧ g.pc < es.length := by
        intro x hx
        cases hev : g.events with
        | none => simp [Goroutine.next, hev] at hx
        | some es =>
          simp only [Goroutine.next, hev] at hx
          exact ⟨es, rfl, (List.getElem?_eq_some.1 hx).1⟩
      split at h
      · rename_i pl en hnext hm
        split at h
        · cases h
        · cases h
          obtain ⟨es, hev, hpc⟩ := hlt _ hnext
          simp only [Sys.measure, hset, afterSelect_of_not_both false en (by simp), hm]
          rw [hs]
          simp only [List.map_append, List.sum_append, List.map_cons, List.sum_cons, hev]
          simp
          omega
      · rename_i er un hnext hm
        split at h
        · cases h
        · cases h
          obtain ⟨es, hev, hpc⟩ := hlt _ hnext
          simp only [Sys.measure, hset, afterSelect_of_not_both un false (by simp), hm]
          rw [hs]
          simp only [List.map_append, List.sum_append, List.map_cons, List.sum_cons, hev]
          simp
          omega
      · cases h
  | recvClosedUpdates =>
    simp only at h
    split at h
    · rename_i en hm
      split at h
      · cases h
        simp only [Sys.measure, hm]
        cases en <;> simp [afterSelect]
      · cases h
    · cases h
  | recvClosedErrors =>
    simp only at h
    split at h
    · rename_i un hm
      split at h
      · cases h
        simp only [Sys.measure, hm]
        cases un <;> simp [afterSelect]
      · cases h
    · cases h
  | done i =>
    simp only at h
    cases hg : s.tasks[i]? with
    | none => simp [hg] at h
    | some g =>
      simp only [hg] at h
      obtain ⟨l1, l2, hs, _, hset⟩ := getElem?_decomp _ _ _ hg
      split at h
      · rename_i hnext
        split at h
        · cases h
          simp only [Sys.measure, hcr]
          simp
        · cases h
          cases hev : g.events with
          | none => simp [Goroutine.next, hev] at hnext
          | some es =>
            simp only [Goroutine.next, hev] at hnext
            have hpc := (List.getElem?_eq_some.1 hnext).1
            simp only [Sys.measure, hset]
            rw [hs]
            simp only [List.map_append, List.sum_append, List.map_cons, List.sum_cons, hev]
            simp
            omega
      · cases h
  | sendOnClosed i =>
    simp only at h
    cases hg : s.tasks[i]? with
    | none => simp [hg] at h
    | some g =>
      simp only [hg] at h
      split at h
      · split at h
        · cases h
          simp only [Sys.measure, hcr]
          simp
        · cases h
      · split at h
        · cases h
          simp only [Sys.measure, hcr]
          simp
        · cases h
      · cases h
  | wake =>
    simp only at h
    split at h
    · rename_i hc
      split at h
      · cases h
        simp only [Sys.measure, hc]
        simp
      · cases h
    · cases h
  | closeUpdates =>
    simp only at h
    split at h
    · rename_i hc
      cases h
      simp only [Sys.measure, hc]
      simp
    · cases h
  | closeErrors =>
    simp only at h
    split at h
    · rename_i hc
      cases h
      simp only [Sys.measure, hc]
      simp
    · cases h

theorem createUpdate_unreadable (z : Gzip) (cfg : Config) (fs : FS) (path platform : String)
    (e : PathError) (h : generateSha256 fs path = Except.error e) :
    createUpdate z cfg fs path platform = (fs, [Event.sendError e, Event.wgDone]) := by
  simp only [createUpdate, createUpdateBody, h]
  rfl

set_option maxRecDepth 100000 in
theorem reachable_final0 : Reachable params0 files0 final0 := by
  have h : (main params0 files0 schedule0).isSome = true := by decide
  obtain ⟨x, hx⟩ := exists_of_isSome _ h
  exact ⟨schedule0, by simp [final0, hx]⟩

/-- C7, as stated, fails in its last part: of the two inputs exactly one
(`bin/darwin-arm64`) cannot be read, but the volume is full, so the task for
the readable input fails at its manifest and `main` prints two errors and no
success. -/
theorem one_unreadable_input_two_failures :
    (match generateSha256 fsFull "bin/linux-amd64" with
      | Except.ok _ => none
      | Except.error e => some e) = none ∧
    (match generateSha256 fsFull "bin/darwin-arm64" with
      | Except.ok _ => none
      | Except.error e => some e) =
      some { op := "open", path := "bin/darwin-arm64", err := Errno.ENOENT } ∧
    (main params0 files0 schedule1).map (fun s => (s.main, s.out)) =
      some (MainPc.exited,
        [Line.error { op := "open", path := "bin/darwin-arm64", err := Errno.ENOENT },
         Line.error { op := "write", path := "public/linux-amd64.json", err := Errno.ENOSPC }]) := by
  set_option maxRecDepth 100000 in decide

/-- C7 (amended): in every state an invocation on `N` directory entries can reach, under
every interleaving, no goroutine has panicked and at most `N` lines are
printed; once `main` has left its reporting loop there is one task per entry,
every task has sent its result and run `wg.Done`, the printed lines are, up to
order, exactly the lines of the tasks (`N` in all, as many `Error:` lines as
failed tasks, the rest successes); before that some goroutine can always step,
and every step lowers a bound on the steps left, so the loop is always left;
and a task whose input cannot be read fails. -/
theorem main_reports_every_task (p : Params) (files : List String) (s : Sys)
    (h : Reachable p files s) :
    s.crashed = false ∧ s.out.length ≤ files.length ∧
    (s.main = MainPc.exited →
      s.tasks.map Goroutine.task = launch p.appPath p.platform files ∧
      (∀ g ∈ s.tasks, ∃ e, e.isSend = true ∧ g.events = some [e, Event.wgDone] ∧ g.pc = 2) ∧
      s.out.Perm (s.tasks.filterMap Goroutine.line) ∧
      s.out.length = files.length ∧
      (s.out.filter Line.isError).length = (s.tasks.filter Goroutine.failed).length ∧
      (s.out.filter Line.isCreated).length + (s.out.filter Line.isError).length =
        files.length) ∧
    (s.main ≠ MainPc.exited → ∃ a s1, step p s a = some s1) ∧
    (∀ a s1, step p s a = some s1 → s1.measure < s.measure) ∧
    (∀ fs path platform e, generateSha256 fs path = Except.error e →
      (createUpdate p.z p.cfg fs path platform).2 = [Event.sendError e, Event.wgDone]) := by
  have hinv := Inv.of_reachable p files s h
  refine ⟨hinv.notCrashed, Inv.out_le p files s hinv, ?_, Inv.progress p files s hinv,
    fun a s1 hs => Inv.measure_lt p files s s1 a hinv hs,
    fun fs path platform e he => by rw [createUpdate_unreadable _ _ _ _ _ _ he]⟩
  intro hex
  have hdone := Inv.all_done p files s hinv hex
  have hl := hinv.launched
  simp only [hex, MainPc.rest, launch, List.map_nil, List.append_nil] at hl
  have hperm : s.out.Perm (s.tasks.filterMap Goroutine.line) := by
    rw [← filterMap_reported_of_done s.tasks (fun g hg => by
      obtain ⟨_, _, _, h2⟩ := hdone g hg
      exact h2)]
    exact hinv.printed
  obtain ⟨hlen, hfail⟩ := filterMap_line_length s.tasks hdone
  have hN : s.out.length = files.length := by
    rw [hperm.length_eq, hlen, ← List.length_map s.tasks Goroutine.task, hl, List.length_map]
  refine ⟨hl, hdone, hperm, hN, ?_, ?_⟩
  · rw [(hperm.filter Line.isError).length_eq, hfail]
  · rw [filter_isCreated_add_isError, hN]

set_option maxRecDepth 100000 in
theorem main_reports_every_task_witness :
    (Reachable params0 files0 final0 ∧ final0.main = MainPc.exited) ∧
    final0.out =
      [Line.error { op := "open", path := "bin/darwin-arm64", err := Errno.ENOENT },
       Line.created "linux-amd64"] ∧
    final0.out.length = files0.length ∧
    (final0.out.filter Line.isError).length = (final0.tasks.filter Goroutine.failed).length ∧
    (final0.out.filter Line.isCreated).length + (final0.out.filter Line.isError).length =
      files0.length :=
  ⟨⟨reachable_final0, by decide⟩, by decide,
    ((main_reports_every_task params0 files0 final0 reachable_final0).2.2.1 (by decide)).2.2.2⟩

end Shrupdate
